import Mathlib

/-!
Verification of the order-splitting / reconciliation core of the zenheart_erp
repository (`app/sync_utils.py`, `run_split_orders.py`, `app/export_csv.py`,
`app/models/orders.py`), as a shallow embedding in Lean.

Conventions of the embedding:
* Python runtime values that flow through the defensively-parsed numeric fields
  are modelled by `JVal` (absent/None, bool, int, str).  Monetary arithmetic,
  which CPython performs on IEEE-754 doubles, is idealized as exact rational
  arithmetic (`ℚ`); `round(x, 2)` is modelled as exact round-half-to-even at
  two decimals.  String numerals are parsed to the exact rational they denote
  (the special numerals inf/nan and underscore separators are outside the
  modelled input space).
* Python exceptions are modelled with `Except PyErr`; a `try/except` clause is
  a match recovering exactly the caught error kinds.
* Python's insertion-ordered `dict` used for grouping is modelled by an
  association list maintained with the same insertion discipline.
-/

namespace Zenheart

/-- Python exception kinds raised or caught by the modelled code. -/
inductive PyErr where
  | typeError
  | valueError
  | attributeError
  | indexError
deriving DecidableEq, Repr

/-- A loosely-typed Python/JSON value as found in the raw line-item dicts:
`dict.get` of a missing key gives `none` (Python `None`). -/
inductive JVal where
  | none
  | b (v : Bool)
  | i (n : Int)
  | s (str : String)
deriving DecidableEq, Repr

/-- Python truthiness of a `JVal`. -/
def truthy : JVal → Bool
  | .none => false
  | .b v => v
  | .i n => n ≠ 0
  | .s str => str ≠ ""

/-- Python `a or b` restricted to `JVal` operands. -/
def jOr (a b : JVal) : JVal := if truthy a then a else b

/-- View an optional string field as the Python value `dict.get` would give. -/
def jOfOptStr : Option String → JVal
  | Option.none => .none
  | Option.some str => .s str

/-- Strip leading and trailing whitespace off a character list
(model of Python `str.strip()` for the ASCII whitespace that occurs here). -/
def stripChars (cs : List Char) : List Char :=
  ((cs.dropWhile Char.isWhitespace).reverse.dropWhile Char.isWhitespace).reverse

/-- Model of Python `str.strip()`. -/
def pyStrip (s : String) : String := ⟨stripChars s.data⟩

/-- Accumulate decimal digits into a natural number. -/
def digitsToNat (acc : Nat) : List Char → Nat
  | [] => acc
  | c :: cs => digitsToNat (acc * 10 + (c.toNat - 48)) cs

/-- Split a leading run of decimal digits off a character list. -/
def spanDigits (cs : List Char) : List Char × List Char :=
  (cs.takeWhile Char.isDigit, cs.dropWhile Char.isDigit)

/-- Consume an optional leading sign; returns (isNegative, rest). -/
def parseSign : List Char → Bool × List Char
  | '-' :: cs => (true, cs)
  | '+' :: cs => (false, cs)
  | cs => (false, cs)

/-- Scale a rational by a power of ten (decimal exponent part). -/
def applyExp (q : ℚ) (e : Int) : ℚ :=
  if 0 ≤ e then q * (10 : ℚ) ^ e.toNat else q / (10 : ℚ) ^ (-e).toNat

/-- Parse the exponent part after `e`/`E`: optional sign then digits. -/
def parseExpPart (cs : List Char) : Option (Int × List Char) :=
  let (neg, cs1) := parseSign cs
  let (ds, cs2) := spanDigits cs1
  if ds.isEmpty then Option.none
  else Option.some ((if neg then -(digitsToNat 0 ds : Int) else (digitsToNat 0 ds : Int)), cs2)

/-- Model of Python `float(str)` on finite decimal numerals:
optional surrounding whitespace, optional sign,
`digits[.digits] | .digits`, optional exponent.  `none` models `ValueError`. -/
def pyFloatStr (s : String) : Option ℚ :=
  let cs := stripChars s.data
  let (neg, cs1) := parseSign cs
  let (ip, cs2) := spanDigits cs1
  let (fp, cs3) :=
    match cs2 with
    | '.' :: rest => spanDigits rest
    | _ => ([], cs2)
  if ip.isEmpty && fp.isEmpty then Option.none
  else
    let mant : ℚ := (digitsToNat 0 ip : ℚ) + (digitsToNat 0 fp : ℚ) / (10 : ℚ) ^ fp.length
    let signed : Option ℚ :=
      match cs3 with
      | [] => Option.some mant
      | 'e' :: r => (parseExpPart r).bind fun er =>
          if er.2.isEmpty then Option.some (applyExp mant er.1) else Option.none
      | 'E' :: r => (parseExpPart r).bind fun er =>
          if er.2.isEmpty then Option.some (applyExp mant er.1) else Option.none
      | _ => Option.none
    signed.map fun q => if neg then -q else q

/-- Model of Python `int(str)`: optional surrounding whitespace, optional sign,
digits only.  `none` models `ValueError`. -/
def pyIntStr (s : String) : Option Int :=
  let cs := stripChars s.data
  let (neg, cs1) := parseSign cs
  let (ds, cs2) := spanDigits cs1
  if ds.isEmpty || !cs2.isEmpty then Option.none
  else Option.some (if neg then -(digitsToNat 0 ds : Int) else (digitsToNat 0 ds : Int))

/-- Model of Python `float(x)` over `JVal` operands. -/
def pyFloat : JVal → Except PyErr ℚ
  | .none => .error .typeError
  | .b v => .ok (if v then 1 else 0)
  | .i n => .ok (n : ℚ)
  | .s str =>
    match pyFloatStr str with
    | Option.some q => .ok q
    | Option.none => .error .valueError

/-- Truncation toward zero of a rational, as Python `int(float)` does. -/
def truncRat (q : ℚ) : Int := q.num.tdiv q.den

/-- Model of Python `int(x)` over `JVal` operands. -/
def pyInt : JVal → Except PyErr Int
  | .none => .error .typeError
  | .b v => .ok (if v then 1 else 0)
  | .i n => .ok n
  | .s str =>
    match pyIntStr str with
    | Option.some n => .ok n
    | Option.none => .error .valueError

/-- Model of Python `str(x)` for the value kinds of `JVal`. -/
def pyStrRepr : JVal → String
  | .none => "None"
  | .b true => "True"
  | .b false => "False"
  | .i n => toString n
  | .s str => str

/-- Model of the guard `str(x).strip() != ""`: the `str()` representation of a
non-string value is never blank. -/
def strNonblank (v : JVal) : Bool :=
  match v with
  | .s str => pyStrip str ≠ ""
  | _ => true

/-- Floor of a rational (denominator is positive, so `fdiv` floors). -/
def rfloor (q : ℚ) : Int := q.num.fdiv q.den

/-- Round a rational to the nearest integer, ties to even
(the rounding rule of Python's `round`). -/
def roundHalfEven (q : ℚ) : Int :=
  let f := rfloor q
  if q - (f : ℚ) < 1/2 then f
  else if (1 : ℚ)/2 < q - (f : ℚ) then f + 1
  else if f % 2 = 0 then f else f + 1

/-- Model of Python `round(x, 2)` in exact rational arithmetic. -/
def round2 (q : ℚ) : ℚ := (roundHalfEven (q * 100) : ℚ) / 100

/-! ## Region classifier (`app/sync_utils.py`) -/

/-- The fixed variant-label → region table `REGION_BY_SPEC`. -/
def REGION_BY_SPEC : List (String × String) :=
  [("天壇天公廟", "台南"),
   ("艋舺龍山寺", "台北"),
   ("慈鳳宮", "屏東"),
   ("聖帝廟", "屏東"),
   ("屏東孔廟", "屏東"),
   ("佛光山", "高雄")]

/-- The sentinel region `OTHER_REGION`. -/
def OTHER_REGION : String := "其他"

/-- A raw line-item dict as produced by `_graphql_node_to_order`
(`app/services/shopify_service.py`): the numeric-ish fields hold arbitrary
JSON scalars, a missing key is `JVal.none`.  The variant title is a string or
null in every order that survives `_graphql_node_to_order`. -/
structure LItem where
  name : JVal := .none
  sku_id : JVal := .none
  variant_title : Option String := Option.none
  quantity : JVal := .none
  price : JVal := .none
  original_unit_price : JVal := .none
  discounted_unit_price : JVal := .none
  original_total : JVal := .none
  discounted_total : JVal := .none
  total_discount : JVal := .none
deriving DecidableEq, Repr

/-- The region classifier: `REGION_BY_SPEC.get((variant_title or "").strip(), OTHER_REGION)`
as inlined in `group_line_items_by_region`. -/
def classify (variant_title : Option String) : String :=
  (REGION_BY_SPEC.lookup (pyStrip (variant_title.getD ""))).getD OTHER_REGION

/-- Region of one line item. -/
def itemRegion (it : LItem) : String := classify it.variant_title

/-! ## Reconciliation calculator (`app/sync_utils.py`) -/

/-- `except (TypeError, ValueError): pass` around one loop iteration of the
subtotal functions: a caught failure leaves the accumulator unchanged,
any other exception kind propagates. -/
def catchTV (total : ℚ) (r : Except PyErr ℚ) : Except PyErr ℚ :=
  match r with
  | .ok v => .ok (total + v)
  | .error .typeError => .ok total
  | .error .valueError => .ok total
  | .error e => .error e

/-- Loop body of `items_subtotal`: prefer `discounted_total` when present and
non-blank, else `float(price or 0) * int(quantity or 0)`. -/
def itemSubtotalBody (it : LItem) : Except PyErr ℚ :=
  if it.discounted_total ≠ JVal.none ∧ strNonblank it.discounted_total = true then
    pyFloat it.discounted_total
  else do
    let p ← pyFloat (jOr it.price (.i 0))
    let q ← pyInt (jOr it.quantity (.i 0))
    pure (p * (q : ℚ))

/-- `items_subtotal`: discounted subtotal of a line-item list, rounded to 2dp. -/
def items_subtotal (items : List LItem) : Except PyErr ℚ := do
  let t ← items.foldlM (fun total it => catchTV total (itemSubtotalBody it)) (0 : ℚ)
  pure (round2 t)

/-- Loop body of `items_discounted_subtotal_by_unit`:
`float(discounted_unit_price or price or "0") * int(quantity or 0)`. -/
def itemUnitQty (it : LItem) : Except PyErr ℚ := do
  let u ← pyFloat (jOr (jOr it.discounted_unit_price it.price) (.s "0"))
  let q ← pyInt (jOr it.quantity (.i 0))
  pure (u * (q : ℚ))

/-- `items_discounted_subtotal_by_unit`: per-unit discounted subtotal, rounded to 2dp. -/
def items_discounted_subtotal_by_unit (items : List LItem) : Except PyErr ℚ := do
  let t ← items.foldlM (fun total it => catchTV total (itemUnitQty it)) (0 : ℚ)
  pure (round2 t)

/-- Loop body of `items_original_subtotal`: prefer `original_total` when present
and non-blank, else `float(original_unit_price or price or 0) * int(quantity or 0)`. -/
def itemOriginalBody (it : LItem) : Except PyErr ℚ :=
  if it.original_total ≠ JVal.none ∧ strNonblank it.original_total = true then
    pyFloat it.original_total
  else do
    let p ← pyFloat (jOr (jOr it.original_unit_price it.price) (.i 0))
    let q ← pyInt (jOr it.quantity (.i 0))
    pure (p * (q : ℚ))

/-- `items_original_subtotal`: original-price subtotal, rounded to 2dp. -/
def items_original_subtotal (items : List LItem) : Except PyErr ℚ := do
  let t ← items.foldlM (fun total it => catchTV total (itemOriginalBody it)) (0 : ℚ)
  pure (round2 t)

/-- Value of a per-item computation with a caught failure contributing `0`. -/
def exceptVal (r : Except PyErr ℚ) : ℚ :=
  match r with
  | .ok v => v
  | .error _ => 0

/-- Total-function value of the `items_subtotal` loop body. -/
def itemSubtotalVal (it : LItem) : ℚ := exceptVal (itemSubtotalBody it)

/-- Total-function value of the `items_discounted_subtotal_by_unit` loop body. -/
def itemUnitQtyVal (it : LItem) : ℚ := exceptVal (itemUnitQty it)

/-- Total-function value of the `items_original_subtotal` loop body. -/
def itemOriginalVal (it : LItem) : ℚ := exceptVal (itemOriginalBody it)

/-- Total-function value of `items_subtotal`. -/
def items_subtotal_val (items : List LItem) : ℚ :=
  round2 (items.map itemSubtotalVal).sum

/-- Total-function value of `items_discounted_subtotal_by_unit`. -/
def items_discounted_val (items : List LItem) : ℚ :=
  round2 (items.map itemUnitQtyVal).sum

/-- Total-function value of `items_original_subtotal`. -/
def items_original_val (items : List LItem) : ℚ :=
  round2 (items.map itemOriginalVal).sum

theorem pyFloat_err {v : JVal} {e : PyErr} (h : pyFloat v = .error e) :
    e = .typeError ∨ e = .valueError := by
  unfold pyFloat at h
  split at h
  · exact Or.inl (Except.error.inj h).symm
  · exact absurd h (by simp)
  · exact absurd h (by simp)
  · split at h
    · exact absurd h (by simp)
    · exact Or.inr (Except.error.inj h).symm

theorem pyInt_err {v : JVal} {e : PyErr} (h : pyInt v = .error e) :
    e = .typeError ∨ e = .valueError := by
  unfold pyInt at h
  split at h
  · exact Or.inl (Except.error.inj h).symm
  · exact absurd h (by simp)
  · exact absurd h (by simp)
  · split at h
    · exact absurd h (by simp)
    · exact Or.inr (Except.error.inj h).symm

theorem floatIntBody_err {a b : JVal} {e : PyErr}
    (h : (do
      let p ← pyFloat a
      let q ← pyInt b
      pure (p * (q : ℚ)) : Except PyErr ℚ) = .error e) :
    e = .typeError ∨ e = .valueError := by
  cases hp : pyFloat a with
  | error e1 =>
    rw [hp] at h
    simp only [Bind.bind, Except.bind] at h
    exact (Except.error.inj h) ▸ pyFloat_err hp
  | ok p =>
    rw [hp] at h
    simp only [Bind.bind, Except.bind] at h
    cases hq : pyInt b with
    | error e2 =>
      rw [hq] at h
      simp only [Except.bind] at h
      exact (Except.error.inj h) ▸ pyInt_err hq
    | ok q =>
      rw [hq] at h
      simp [Except.bind, pure, Except.pure] at h

theorem itemSubtotalBody_err {it : LItem} {e : PyErr} (h : itemSubtotalBody it = .error e) :
    e = .typeError ∨ e = .valueError := by
  unfold itemSubtotalBody at h
  split at h
  · exact pyFloat_err h
  · exact floatIntBody_err h

theorem itemUnitQty_err {it : LItem} {e : PyErr} (h : itemUnitQty it = .error e) :
    e = .typeError ∨ e = .valueError := by
  unfold itemUnitQty at h
  exact floatIntBody_err h

theorem itemOriginalBody_err {it : LItem} {e : PyErr} (h : itemOriginalBody it = .error e) :
    e = .typeError ∨ e = .valueError := by
  unfold itemOriginalBody at h
  split at h
  · exact pyFloat_err h
  · exact floatIntBody_err h

theorem foldlM_catchTV (body : LItem → Except PyErr ℚ)
    (herr : ∀ it e, body it = .error e → e = .typeError ∨ e = .valueError) :
    ∀ (items : List LItem) (t0 : ℚ),
    items.foldlM (fun total it => catchTV total (body it)) t0
      = .ok (t0 + (items.map (fun it => exceptVal (body it))).sum)
  | [], t0 => by simp [List.foldlM, pure, Except.pure]
  | it :: rest, t0 => by
    have ih := foldlM_catchTV body herr rest
    simp only [List.foldlM, List.map_cons, List.sum_cons]
    cases hb : body it with
    | ok v =>
      exact (ih (t0 + v)).trans (by simp [exceptVal, add_assoc])
    | error e =>
      rcases herr it e hb with he | he <;> subst he <;>
        exact (ih t0).trans (by simp [exceptVal])

theorem items_subtotal_ok (items : List LItem) :
    items_subtotal items = .ok (items_subtotal_val items) := by
  unfold items_subtotal items_subtotal_val itemSubtotalVal
  rw [foldlM_catchTV itemSubtotalBody (fun _ _ h => itemSubtotalBody_err h)]
  simp [Bind.bind, Except.bind, pure, Except.pure]

theorem items_discounted_ok (items : List LItem) :
    items_discounted_subtotal_by_unit items = .ok (items_discounted_val items) := by
  unfold items_discounted_subtotal_by_unit items_discounted_val itemUnitQtyVal
  rw [foldlM_catchTV itemUnitQty (fun _ _ h => itemUnitQty_err h)]
  simp [Bind.bind, Except.bind, pure, Except.pure]

theorem items_original_ok (items : List LItem) :
    items_original_subtotal items = .ok (items_original_val items) := by
  unfold items_original_subtotal items_original_val itemOriginalVal
  rw [foldlM_catchTV itemOriginalBody (fun _ _ h => itemOriginalBody_err h)]
  simp [Bind.bind, Except.bind, pure, Except.pure]

/-! ## Grouping by region (`group_line_items_by_region`) -/

/-- One step of building the insertion-ordered `dict` of groups:
`if region not in groups: groups[region] = []` then `groups[region].append(item)`. -/
def insertGrouped : List (String × List LItem) → String → LItem → List (String × List LItem)
  | [], r, it => [(r, [it])]
  | (r', l) :: rest, r, it =>
    if r' = r then (r', l ++ [it]) :: rest else (r', l) :: insertGrouped rest r it

/-- `group_line_items_by_region`: group the line items by classified region,
preserving the first-occurrence order of regions and the input order of items
(Python `dict` insertion semantics). -/
def group_line_items_by_region (items : List LItem) : List (String × List LItem) :=
  items.foldl (fun gs it => insertGrouped gs (itemRegion it) it) []

/-- Keep the first occurrence of each element, tracking already-seen elements. -/
def dedupFirstAux (seen : List String) : List String → List String
  | [] => []
  | r :: rest => if r ∈ seen then dedupFirstAux seen rest else r :: dedupFirstAux (r :: seen) rest

/-- First-occurrence deduplication of a list of region labels. -/
def dedupFirst (l : List String) : List String := dedupFirstAux [] l

/-- Region keys of an item list, in order of first occurrence. -/
def regionKeys (items : List LItem) : List String := dedupFirst (items.map itemRegion)

/-- The sub-list of items classified to region `r`, in input order. -/
def itemsOfRegion (items : List LItem) (r : String) : List LItem :=
  items.filter (fun it => itemRegion it == r)

theorem mem_dedupFirstAux {a : String} :
    ∀ {seen l : List String}, a ∈ dedupFirstAux seen l ↔ a ∈ l ∧ a ∉ seen := by
  intro seen l
  induction l generalizing seen with
  | nil => simp [dedupFirstAux]
  | cons r rest ih =>
    unfold dedupFirstAux
    by_cases hr : r ∈ seen
    · simp only [if_pos hr, ih, List.mem_cons]
      constructor
      · rintro ⟨h1, h2⟩; exact ⟨Or.inr h1, h2⟩
      · rintro ⟨h1 | h1, h2⟩
        · exact absurd (h1 ▸ hr) h2
        · exact ⟨h1, h2⟩
    · simp only [if_neg hr, List.mem_cons, ih]
      constructor
      · rintro (h | ⟨h1, h2⟩)
        · exact ⟨Or.inl h, h ▸ hr⟩
        · exact ⟨Or.inr h1, fun hs => h2 (Or.inr hs)⟩
      · rintro ⟨h1 | h1, h2⟩
        · exact Or.inl h1
        · by_cases har : a = r
          · exact Or.inl har
          · exact Or.inr ⟨h1, by simp [List.mem_cons, har, h2]⟩

theorem mem_dedupFirst {a : String} {l : List String} : a ∈ dedupFirst l ↔ a ∈ l := by
  unfold dedupFirst
  rw [mem_dedupFirstAux]
  simp

theorem nodup_dedupFirstAux : ∀ (seen l : List String), (dedupFirstAux seen l).Nodup := by
  intro seen l
  induction l generalizing seen with
  | nil => simp [dedupFirstAux]
  | cons r rest ih =>
    unfold dedupFirstAux
    by_cases hr : r ∈ seen
    · simpa [if_pos hr] using ih seen
    · rw [if_neg hr]
      refine List.nodup_cons.mpr ⟨fun hmem => ?_, ih (r :: seen)⟩
      exact (mem_dedupFirstAux.mp hmem).2 (List.mem_cons_self r seen)

theorem nodup_dedupFirst (l : List String) : (dedupFirst l).Nodup :=
  nodup_dedupFirstAux [] l

theorem dedupFirstAux_snoc (r : String) :
    ∀ (seen l : List String), dedupFirstAux seen (l ++ [r])
      = dedupFirstAux seen l ++ (if r ∈ seen ∨ r ∈ l then [] else [r]) := by
  intro seen l
  induction l generalizing seen with
  | nil =>
    by_cases hr : r ∈ seen <;> simp [dedupFirstAux, hr]
  | cons x xs ih =>
    simp only [List.cons_append]
    unfold dedupFirstAux
    by_cases hx : x ∈ seen
    · rw [if_pos hx, if_pos hx, ih seen]
      congr 1
      by_cases hrx : r = x
      · subst hrx; simp [hx]
      · simp [List.mem_cons, hrx]
    · rw [if_neg hx, if_neg hx, ih (x :: seen)]
      simp only [List.cons_append, List.mem_cons]
      congr 1
      by_cases hrx : r = x
      · subst hrx; simp
      · simp [hrx, or_assoc, or_comm (a := r ∈ seen)]

theorem dedupFirst_snoc (l : List String) (r : String) :
    dedupFirst (l ++ [r]) = dedupFirst l ++ (if r ∈ l then [] else [r]) := by
  unfold dedupFirst
  rw [dedupFirstAux_snoc]
  simp

theorem itemsOfRegion_snoc_self {it : LItem} {r : String} (items : List LItem)
    (h : itemRegion it = r) :
    itemsOfRegion (items ++ [it]) r = itemsOfRegion items r ++ [it] := by
  unfold itemsOfRegion
  rw [List.filter_append]
  simp [h]

theorem itemsOfRegion_snoc_other {it : LItem} {r : String} (items : List LItem)
    (h : itemRegion it ≠ r) :
    itemsOfRegion (items ++ [it]) r = itemsOfRegion items r := by
  unfold itemsOfRegion
  rw [List.filter_append]
  simp [h]

theorem insertGrouped_mem {it : LItem} {r : String} (h : itemRegion it = r) :
    ∀ (K : List String) (items : List LItem), K.Nodup → r ∈ K →
    insertGrouped (K.map fun r' => (r', itemsOfRegion items r')) r it
      = K.map fun r' => (r', itemsOfRegion (items ++ [it]) r') := by
  intro K
  induction K with
  | nil => intro items _ hmem; cases hmem
  | cons k K' ih =>
    intro items hnd hmem
    simp only [List.map_cons, insertGrouped]
    by_cases hk : k = r
    · subst hk
      rw [if_pos rfl]
      have hknot : k ∉ K' := (List.nodup_cons.mp hnd).1
      congr 1
      · rw [itemsOfRegion_snoc_self items h]
      · refine (List.map_congr_left fun a ha => ?_)
        have hne : itemRegion it ≠ a := fun he => hknot ((h.symm.trans he) ▸ ha)
        rw [itemsOfRegion_snoc_other items hne]
    · rw [if_neg hk]
      have hmem' : r ∈ K' := by
        rcases List.mem_cons.mp hmem with he | hm
        · exact absurd he.symm hk
        · exact hm
      rw [ih items (List.nodup_cons.mp hnd).2 hmem']
      congr 1
      rw [itemsOfRegion_snoc_other items (fun he => hk (he.symm.trans h))]

theorem insertGrouped_not_mem {it : LItem} {r : String} (h : itemRegion it = r) :
    ∀ (K : List String) (items : List LItem), r ∉ K →
    insertGrouped (K.map fun r' => (r', itemsOfRegion items r')) r it
      = (K.map fun r' => (r', itemsOfRegion (items ++ [it]) r')) ++ [(r, [it])] := by
  intro K
  induction K with
  | nil =>
    intro items _
    simp [insertGrouped]
  | cons k K' ih =>
    intro items hmem
    have hk : k ≠ r := fun he => hmem (he ▸ List.mem_cons_self k K')
    simp only [List.map_cons, insertGrouped, if_neg hk, List.cons_append]
    rw [ih items (fun hm => hmem (List.mem_cons_of_mem k hm))]
    congr 2
    rw [itemsOfRegion_snoc_other items (fun he => hk (he.symm.trans h))]

theorem regionKeys_snoc (items : List LItem) (it : LItem) :
    regionKeys (items ++ [it])
      = regionKeys items ++ (if itemRegion it ∈ items.map itemRegion then [] else [itemRegion it]) := by
  unfold regionKeys
  rw [List.map_append]
  simp only [List.map_cons, List.map_nil]
  exact dedupFirst_snoc (items.map itemRegion) (itemRegion it)

theorem group_characterization (items : List LItem) :
    group_line_items_by_region items
      = (regionKeys items).map fun r => (r, itemsOfRegion items r) := by
  induction items using List.reverseRecOn with
  | nil => simp [group_line_items_by_region, regionKeys, dedupFirst, dedupFirstAux]
  | append_singleton items it ih =>
    unfold group_line_items_by_region at ih ⊢
    rw [List.foldl_append, ih]
    simp only [List.foldl_cons, List.foldl_nil]
    rw [regionKeys_snoc]
    by_cases hmem : itemRegion it ∈ items.map itemRegion
    · have hkey : itemRegion it ∈ regionKeys items := mem_dedupFirst.mpr hmem
      rw [if_pos hmem, List.append_nil]
      exact insertGrouped_mem rfl (regionKeys items) items (nodup_dedupFirst _) hkey
    · have hkey : itemRegion it ∉ regionKeys items := fun hk => hmem (mem_dedupFirst.mp hk)
      rw [if_neg hmem]
      rw [insertGrouped_not_mem rfl (regionKeys items) items hkey]
      rw [List.map_append]
      congr 1
      simp only [List.map_cons, List.map_nil]
      have hnil : itemsOfRegion items (itemRegion it) = [] := by
        unfold itemsOfRegion
        rw [List.filter_eq_nil_iff]
        intro a ha hreg
        exact hmem (List.mem_map.mpr ⟨a, ha, by simpa using hreg⟩)
      rw [itemsOfRegion_snoc_self items rfl, hnil, List.nil_append]

/-! ## Group ordering: `sorted(groups.items(), key=lambda x: (x[0] == OTHER_REGION, x[0]))` -/

/-- First component of the Python sort key `(x[0] == OTHER_REGION, x[0])`
(`False < True`, so mapped regions rank 0, the sentinel ranks 1). -/
def regionRank (r : String) : Nat := if r = OTHER_REGION then 1 else 0

/-- The group ordering on region labels: "Other" last, the rest in ascending
code-point string order (Python tuple comparison of the sort key). -/
def regionLe (a b : String) : Prop :=
  regionRank a < regionRank b ∨ (regionRank a = regionRank b ∧ a ≤ b)

instance : DecidableRel regionLe := fun a b => by
  unfold regionLe
  infer_instance

/-- The group ordering lifted to (region, items) pairs. -/
def groupLe (x y : String × List LItem) : Prop := regionLe x.1 y.1

instance : DecidableRel groupLe := fun x y => by
  unfold groupLe
  infer_instance

instance : IsTotal String regionLe := ⟨fun a b => by
  unfold regionLe
  rcases Nat.lt_trichotomy (regionRank a) (regionRank b) with h | h | h
  · exact Or.inl (Or.inl h)
  · rcases le_total a b with hab | hab
    · exact Or.inl (Or.inr ⟨h, hab⟩)
    · exact Or.inr (Or.inr ⟨h.symm, hab⟩)
  · exact Or.inr (Or.inl h)⟩

instance : IsTrans String regionLe := ⟨fun a b c hab hbc => by
  unfold regionLe at *
  rcases hab with h1 | ⟨h1, h1'⟩ <;> rcases hbc with h2 | ⟨h2, h2'⟩
  · exact Or.inl (h1.trans h2)
  · exact Or.inl (by omega)
  · exact Or.inl (by omega)
  · exact Or.inr ⟨by omega, le_trans h1' h2'⟩⟩

instance : IsAntisymm String regionLe := ⟨fun a b hab hba => by
  unfold regionLe at *
  rcases hab with h1 | ⟨h1, h1'⟩ <;> rcases hba with h2 | ⟨h2, h2'⟩
  · exact absurd (h1.trans h2) (lt_irrefl _)
  · exact absurd h1 (by omega)
  · exact absurd h2 (by omega)
  · exact le_antisymm h1' h2'⟩

instance : IsTotal (String × List LItem) groupLe :=
  ⟨fun x y => total_of regionLe x.1 y.1⟩

instance : IsTrans (String × List LItem) groupLe :=
  ⟨fun _ _ _ hab hbc => Trans.trans (r := regionLe) hab hbc⟩

/-- The splitting loop's group list: regroup, substitute `{OTHER_REGION: []}` when
empty, then order the groups (`run_split_orders.py` lines 95-146).  Python's
`sorted` is modelled by insertion sort: the keys are pairwise distinct and the
key order is total and antisymmetric, so every correct sort returns the same
list and stability is irrelevant. -/
def sortedGroups (items : List LItem) : List (String × List LItem) :=
  List.insertionSort groupLe
    (if group_line_items_by_region items = [] then [(OTHER_REGION, [])]
     else group_line_items_by_region items)

/-- Region keys of the group list after the empty-order fallback. -/
def fullKeys (items : List LItem) : List String :=
  if items = [] then [OTHER_REGION] else regionKeys items

/-- The ordered region keys that determine sub-order numbering. -/
def orderedRegions (items : List LItem) : List String :=
  List.insertionSort regionLe (fullKeys items)

theorem orderedInsert_map (F : String → String × List LItem) (hF : ∀ r, (F r).1 = r)
    (a : String) :
    ∀ K : List String,
    List.orderedInsert groupLe (F a) (K.map F) = (List.orderedInsert regionLe a K).map F := by
  intro K
  induction K with
  | nil => simp [List.orderedInsert]
  | cons k K' ih =>
    simp only [List.map_cons, List.orderedInsert]
    by_cases h : regionLe a k
    · rw [if_pos (by unfold groupLe; rw [hF, hF]; exact h), if_pos h]
      simp
    · rw [if_neg (by unfold groupLe; rw [hF, hF]; exact h), if_neg h]
      simp only [List.map_cons, ih]

theorem insertionSort_map (F : String → String × List LItem) (hF : ∀ r, (F r).1 = r) :
    ∀ K : List String,
    List.insertionSort groupLe (K.map F) = (List.insertionSort regionLe K).map F := by
  intro K
  induction K with
  | nil => simp [List.insertionSort]
  | cons k K' ih =>
    simp only [List.map_cons, List.insertionSort, ih]
    exact orderedInsert_map F hF k _

theorem regionKeys_ne_nil {items : List LItem} (h : items ≠ []) : regionKeys items ≠ [] := by
  cases items with
  | nil => exact absurd rfl h
  | cons it rest =>
    intro hk
    have : itemRegion it ∈ regionKeys (it :: rest) := by
      apply mem_dedupFirst.mpr
      exact List.mem_map.mpr ⟨it, List.mem_cons_self it rest, rfl⟩
    rw [hk] at this
    cases this

/-- The ordered group list is the ordered key list paired with its filters. -/
theorem sortedGroups_map (items : List LItem) :
    sortedGroups items = (orderedRegions items).map fun r => (r, itemsOfRegion items r) := by
  unfold sortedGroups orderedRegions
  rw [group_characterization]
  by_cases he : items = []
  · subst he
    simp [regionKeys, dedupFirst, dedupFirstAux, fullKeys, List.insertionSort,
      List.orderedInsert, itemsOfRegion]
  · have hne : regionKeys items ≠ [] := regionKeys_ne_nil he
    have hmapne : (regionKeys items).map (fun r => (r, itemsOfRegion items r)) ≠ [] := by
      intro hmap
      exact hne (List.map_eq_nil_iff.mp hmap)
    rw [if_neg hmapne]
    unfold fullKeys
    rw [if_neg he]
    exact insertionSort_map _ (fun r => rfl) (regionKeys items)

theorem nodup_fullKeys (items : List LItem) : (fullKeys items).Nodup := by
  unfold fullKeys
  by_cases he : items = []
  · simp [he]
  · rw [if_neg he]
    exact nodup_dedupFirst _

theorem nodup_orderedRegions (items : List LItem) : (orderedRegions items).Nodup :=
  (List.perm_insertionSort regionLe (fullKeys items)).symm.nodup (nodup_fullKeys items)

theorem sorted_orderedRegions (items : List LItem) :
    (orderedRegions items).Sorted regionLe :=
  List.sorted_insertionSort regionLe (fullKeys items)

theorem mem_orderedRegions {items : List LItem} {r : String} :
    r ∈ orderedRegions items ↔ (∃ it ∈ items, itemRegion it = r) ∨ (items = [] ∧ r = OTHER_REGION) := by
  unfold orderedRegions
  rw [(List.perm_insertionSort regionLe (fullKeys items)).mem_iff]
  unfold fullKeys
  by_cases he : items = []
  · subst he
    simp [eq_comm]
  · rw [if_neg he]
    unfold regionKeys
    rw [mem_dedupFirst]
    simp [he, eq_comm]

theorem mem_orderedRegions_of_item {items : List LItem} {it : LItem} (h : it ∈ items) :
    itemRegion it ∈ orderedRegions items :=
  mem_orderedRegions.mpr (Or.inl ⟨it, h, rfl⟩)

/-- Region-pure partition: a nodup covering key list, each paired with its
filter, flattens to a permutation of the item list. -/
theorem flatten_itemsOfRegion :
    ∀ (rs : List String) (l : List LItem), rs.Nodup → (∀ it ∈ l, itemRegion it ∈ rs) →
    (rs.map (itemsOfRegion l)).flatten.Perm l := by
  intro rs
  induction rs with
  | nil =>
    intro l _ hcov
    cases l with
    | nil => simp
    | cons x xs => cases hcov x (List.mem_cons_self x xs)
  | cons r rs' ih =>
    intro l hnd hcov
    simp only [List.map_cons, List.flatten_cons]
    have hmapeq : rs'.map (itemsOfRegion l)
        = rs'.map (itemsOfRegion (l.filter fun it => !(itemRegion it == r))) := by
      refine List.map_congr_left fun r' hr' => ?_
      have hne : r' ≠ r := fun he => (List.nodup_cons.mp hnd).1 (he ▸ hr')
      unfold itemsOfRegion
      rw [List.filter_filter]
      refine (List.filter_congr fun a _ => ?_).symm
      by_cases ha : itemRegion a = r'
      · simp [ha, hne]
      · simp [ha]
    rw [hmapeq]
    have hperm' := ih (l.filter fun it => !(itemRegion it == r))
      (List.nodup_cons.mp hnd).2
      (fun it hit => by
        have hmem := List.mem_filter.mp hit
        have hcase := hcov it hmem.1
        rcases List.mem_cons.mp hcase with he | hm
        · exact absurd (by simpa using hmem.2) (by simp [he])
        · exact hm)
    exact (hperm'.append_left (itemsOfRegion l r)).trans (List.filter_append_perm _ l)

/-! ## Timestamps: `parse_created_at` and `make_parent_order_no` -/

/-- A parsed Python `datetime`: calendar fields plus an optional fixed UTC
offset in minutes. -/
structure PyDateTime where
  year : Nat
  month : Nat
  day : Nat
  hour : Nat := 0
  minute : Nat := 0
  second : Nat := 0
  microsecond : Nat := 0
  tzMinutes : Option Int := Option.none
deriving DecidableEq, Repr

/-- `created_at.replace("Z", "+00:00")` at character level. -/
def replaceZ : List Char → List Char
  | [] => []
  | 'Z' :: rest => '+' :: '0' :: '0' :: ':' :: '0' :: '0' :: replaceZ rest
  | c :: rest => c :: replaceZ rest

/-- Gregorian leap year. -/
def isLeapYear (y : Nat) : Bool := (y % 4 == 0 && y % 100 != 0) || y % 400 == 0

/-- Days in a month of the proleptic Gregorian calendar. -/
def daysInMonth (y m : Nat) : Nat :=
  if m = 2 then (if isLeapYear y then 29 else 28)
  else if m = 4 ∨ m = 6 ∨ m = 9 ∨ m = 11 then 30 else 31

/-- Parse exactly `n` decimal digits, accumulating into `acc`. -/
def parseDigitsAcc (acc : Nat) : Nat → List Char → Option (Nat × List Char)
  | 0, cs => Option.some (acc, cs)
  | _ + 1, [] => Option.none
  | n + 1, c :: cs =>
    if c.isDigit then parseDigitsAcc (acc * 10 + (c.toNat - 48)) n cs else Option.none

/-- Parse exactly `n` decimal digits. -/
def parseNDigits (n : Nat) (cs : List Char) : Option (Nat × List Char) :=
  parseDigitsAcc 0 n cs

/-- Require one specific character. -/
def expectChar (c : Char) : List Char → Option (List Char)
  | [] => Option.none
  | x :: xs => if x = c then Option.some xs else Option.none

/-- Parse a fractional-second digit run into microseconds. -/
def parseFrac (cs : List Char) : Option (Nat × List Char) :=
  let ds := cs.takeWhile Char.isDigit
  if ds.isEmpty then Option.none
  else
    Option.some (digitsToNat 0 (ds.take 6 ++ List.replicate (6 - (ds.take 6).length) '0'),
      cs.dropWhile Char.isDigit)

/-- Parse the optional `:SS[.ffffff]` part; absent parts are zero. -/
def parseSecFrac (cs : List Char) : Option (Nat × Nat × List Char) :=
  match cs with
  | ':' :: rest => do
    let (s, r) ← parseNDigits 2 rest
    match r with
    | '.' :: r2 => do
      let (micro, r3) ← parseFrac r2
      Option.some (s, micro, r3)
    | ',' :: r2 => do
      let (micro, r3) ← parseFrac r2
      Option.some (s, micro, r3)
    | _ => Option.some (s, 0, r)
  | _ => Option.some (0, 0, cs)

/-- Parse the optional `±HH:MM` UTC offset. -/
def parseTz (cs : List Char) : Option (Option Int × List Char) :=
  match cs with
  | [] => Option.some (Option.none, [])
  | '+' :: rest => do
    let (h, r) ← parseNDigits 2 rest
    let r2 ← expectChar ':' r
    let (m, r3) ← parseNDigits 2 r2
    if h ≤ 23 ∧ m ≤ 59 then Option.some (Option.some ((h : Int) * 60 + (m : Int)), r3)
    else Option.none
  | '-' :: rest => do
    let (h, r) ← parseNDigits 2 rest
    let r2 ← expectChar ':' r
    let (m, r3) ← parseNDigits 2 r2
    if h ≤ 23 ∧ m ≤ 59 then Option.some (Option.some (-((h : Int) * 60 + (m : Int))), r3)
    else Option.none
  | _ => Option.none

/-- `datetime.fromisoformat` on the ISO-8601 shapes the program feeds it:
`YYYY-MM-DD[THH:MM[:SS[.ffffff]][±HH:MM]]` (with `T` or space separator). -/
def parseIsoChars (cs : List Char) : Option PyDateTime := do
  let (y, cs1) ← parseNDigits 4 cs
  let cs2 ← expectChar '-' cs1
  let (mo, cs3) ← parseNDigits 2 cs2
  let cs4 ← expectChar '-' cs3
  let (d, cs5) ← parseNDigits 2 cs4
  if 1 ≤ mo ∧ mo ≤ 12 ∧ 1 ≤ d ∧ d ≤ daysInMonth y mo then
    match cs5 with
    | [] => Option.some { year := y, month := mo, day := d }
    | sep :: rest =>
      if sep = 'T' ∨ sep = ' ' then do
        let (h, t1) ← parseNDigits 2 rest
        let t2 ← expectChar ':' t1
        let (mi, t3) ← parseNDigits 2 t2
        let (s, micro, t4) ← parseSecFrac t3
        let (tz, t5) ← parseTz t4
        if t5 = [] ∧ h ≤ 23 ∧ mi ≤ 59 ∧ s ≤ 59 then
          Option.some { year := y, month := mo, day := d, hour := h, minute := mi,
                        second := s, microsecond := micro, tzMinutes := tz }
        else Option.none
      else Option.none
  else Option.none

/-- `parse_created_at`: `None`/empty gives `None`; `Z` is rewritten to `+00:00`;
a parse failure is caught and gives `None`. -/
def parse_created_at (created_at : String) : Option PyDateTime :=
  if created_at = "" then Option.none
  else parseIsoChars (replaceZ created_at.data)

/-- Left-pad the decimal representation of `n` with zeros to `width`. -/
def padNum (width n : Nat) : String :=
  let s := toString n
  ⟨List.replicate (width - s.length) '0'⟩ ++ s

/-- `make_parent_order_no`: `Order` + `%Y%m%d%H%M%S` + 3-digit milliseconds +
`_` + the Shopify order id, where `now` is the wall-clock Beijing-time instant
read inside the function. -/
def make_parent_order_no (now : PyDateTime) (shopify_order_id : Int) : String :=
  "Order" ++ padNum 4 now.year ++ padNum 2 now.month ++ padNum 2 now.day ++
    padNum 2 now.hour ++ padNum 2 now.minute ++ padNum 2 now.second ++
    padNum 3 (now.microsecond / 1000) ++ "_" ++ toString shopify_order_id

/-! ## The order data model (`ShopifyOrderSyncItem` as consumed by `run_split_orders`) -/

/-- A Shopify address dict (string-or-null fields as delivered by GraphQL). -/
structure Addr where
  name : Option String := Option.none
  address1 : Option String := Option.none
  address2 : Option String := Option.none
  city : Option String := Option.none
  province : Option String := Option.none
  zip : Option String := Option.none
  country : Option String := Option.none
  countryCodeV2 : Option String := Option.none
  phone : Option String := Option.none
deriving DecidableEq, Repr

/-- The customer JSON built by `raw_to_customer_json`. -/
structure CustomerJson where
  name : Option String := Option.none
  email : Option String := Option.none
  phone : Option String := Option.none
  address1 : Option String := Option.none
  address2 : Option String := Option.none
  city : Option String := Option.none
  province : Option String := Option.none
  zip : Option String := Option.none
  country : Option String := Option.none
  countryCodeV2 : Option String := Option.none
deriving DecidableEq, Repr

/-- The keys `raw_to_customer_json` reads off the raw order dict. -/
structure RawCust where
  shipping_address : Option Addr := Option.none
  email : Option String := Option.none
  phone : Option String := Option.none
deriving DecidableEq, Repr

/-- Python `a or b` on optional strings (empty string is falsy). -/
def orStr (a b : Option String) : Option String :=
  match a with
  | Option.some s => if s = "" then b else Option.some s
  | Option.none => b

/-- `raw_to_customer_json`: extract the customer snapshot from the raw dict. -/
def raw_to_customer_json (raw : RawCust) : CustomerJson :=
  let addr := raw.shipping_address.getD {}
  { name := addr.name
    email := raw.email
    phone := orStr addr.phone raw.phone
    address1 := addr.address1
    address2 := addr.address2
    city := addr.city
    province := addr.province
    zip := addr.zip
    country := addr.country
    countryCodeV2 := addr.countryCodeV2 }

/-- `channelInformation` keys the splitter reads. -/
structure ChannelInfo where
  displayName : Option String := Option.none
  channelDefinition : JVal := .none
deriving DecidableEq, Repr

/-- One `{key, value}` custom attribute. -/
structure NoteAttr where
  key : JVal := .none
  value : JVal := .none
deriving DecidableEq, Repr

/-- A shipping-line dict as built by `_graphql_node_to_order` (lines 372-387):
amounts come straight from raw JSON, so they are loose values. -/
structure ShippingLine where
  title : JVal := .none
  source : JVal := .none
  code : JVal := .none
  original_amount : JVal := .none
  discounted_amount : JVal := .none
  discounted_presentment_amount : JVal := .none
  currency_code : JVal := .none
deriving DecidableEq, Repr

/-- The fields of `ShopifyOrderSyncItem` that `run_split_orders` consumes,
with `raw_cust` carrying the raw-dict keys read by `raw_to_customer_json`. -/
structure Order where
  id : Int := 0
  name : String := ""
  email : Option String := Option.none
  phone : Option String := Option.none
  created_at : String := ""
  updated_at : String := ""
  total_price : String := "0"
  currency : String := ""
  financial_status : Option String := Option.none
  note : Option String := Option.none
  staff_note : Option String := Option.none
  note_attributes : List NoteAttr := []
  line_items : List LItem := []
  shipping_address : Option Addr := Option.none
  source_name : Option String := Option.none
  sales_channel : Option String := Option.none
  channel_information : Option ChannelInfo := Option.none
  total_shipping_price : Option String := Option.none
  payment_gateway_names : List String := []
  shipping_lines : List ShippingLine := []
  raw_cust : RawCust := {}
deriving DecidableEq, Repr

/-- `(order.shipping_lines or [{}])[0]`: first shipping line, or an
all-missing dict when the list is empty. -/
def firstShippingLine (o : Order) : ShippingLine :=
  match o.shipping_lines with
  | [] => {}
  | l :: _ => l

/-- The shipping try-block body (`run_split_orders.py` lines 105-113):
original amount from `original_amount`, discounted amount through the fallback
chain `discounted_presentment_amount or discounted_amount or
total_shipping_price or 0`. -/
def shippingTotalsE (o : Order) : Except PyErr (ℚ × ℚ) := do
  let fl := firstShippingLine o
  let so ← pyFloat (jOr fl.original_amount (.i 0))
  let sf ← pyFloat (jOr (jOr (jOr fl.discounted_presentment_amount fl.discounted_amount)
      (jOfOptStr o.total_shipping_price)) (.i 0))
  pure (so, sf)

/-- The shipping totals with the `except (TypeError, ValueError, IndexError)`
recovery to `(0, 0)`. -/
def shippingTotals (o : Order) : ℚ × ℚ :=
  match shippingTotalsE o with
  | .ok p => p
  | .error _ => (0, 0)

/-- `order.total_price or "0"`: the authoritative discounted total, passed
through as a string and never recomputed. -/
def order_discounted_total_of (o : Order) : String :=
  if o.total_price = "" then "0" else o.total_price

/-- First `n` characters of a string (Python slicing `[:n]`). -/
def takeStr (n : Nat) (s : String) : String := ⟨s.data.take n⟩

/-- `(order.currency or "TWD")[:3]`. -/
def currency_of (o : Order) : String :=
  takeStr 3 (if o.currency = "" then "TWD" else o.currency)

/-- `", ".join(order.payment_gateway_names) if ... else None`. -/
def payment_method_of (o : Order) : Option String :=
  if o.payment_gateway_names = [] then Option.none
  else Option.some (String.intercalate ", " o.payment_gateway_names)

/-- The marketing JSON assembled from source/channel fields; `None` when empty. -/
structure MarketingJson where
  source_name : Option String := Option.none
  sales_channel : Option String := Option.none
  channel_information : Option ChannelInfo := Option.none
  channel_definition : JVal := .none
deriving DecidableEq, Repr

/-- `run_split_orders.py` lines 123-132: populate the marketing dict key by key,
then `marketing_json if marketing_json else None` (an empty dict is falsy). -/
def marketing_json_of (o : Order) : Option MarketingJson :=
  let m : MarketingJson := {}
  let m := match o.source_name with
    | Option.some s => if s ≠ "" then { m with source_name := Option.some s } else m
    | Option.none => m
  let m := match o.sales_channel with
    | Option.some s => if s ≠ "" then { m with sales_channel := Option.some s } else m
    | Option.none => m
  let m := match o.channel_information with
    | Option.some ci =>
      let m' := { m with channel_information := Option.some ci }
      if truthy ci.channelDefinition then { m' with channel_definition := ci.channelDefinition }
      else m'
    | Option.none => m
  if m = {} then Option.none else Option.some m

/-- The extra-info JSON (`run_split_orders.py` lines 135-142); it always holds
the two fixed keys, so `extra_info if extra_info else None` never yields `None`. -/
structure ExtraInfo where
  shopify_order_name : String := ""
  staff_note : Option String := Option.none
  note : Option String := Option.none
  note_attributes : Option (List NoteAttr) := Option.none
deriving DecidableEq, Repr

/-- Assemble the extra-info dict. -/
def extra_info_of (o : Order) : Option ExtraInfo :=
  let e : ExtraInfo := { shopify_order_name := o.name, staff_note := o.staff_note }
  let e := match o.note with
    | Option.some n => if n ≠ "" then { e with note := Option.some n } else e
    | Option.none => e
  let e := if o.note_attributes ≠ [] then { e with note_attributes := Option.some o.note_attributes }
    else e
  Option.some e

/-! ## The splitting engine (`run_split_orders.py` lines 93-196) -/

/-- One entry of `amount["items"]`: `original_total` is the verbatim
`it.get("original_total") or "0"`, `discounted_total` is
`str(round(float(discounted_unit_price or price or 0) * int(quantity or 0), 2))`
(the numeric value of the decimal string is modelled). -/
structure AmountItem where
  sku_id : JVal
  original_total : JVal
  discounted_total : ℚ
deriving DecidableEq, Repr

/-- The `amount` breakdown; monetary fields are the numeric values of the
decimal strings written by the source, and `order_discounted_total` is the
untouched pass-through string. -/
structure Amount where
  order_original_total : ℚ
  order_discounted_total : String
  sub_order_original_total : ℚ
  sub_order_discounted_total : ℚ
  items : List AmountItem
deriving DecidableEq, Repr

/-- One row inserted into `orders` by `insert_order`. -/
structure SubOrder where
  parent_order_no : String
  sub_order_no : String
  region : String
  amount : Amount
  currency : String
  payment_status : Option String
  payment_method : Option String
  items_json : List LItem
  customer_json : CustomerJson
  order_created_at : Option PyDateTime
  order_updated_at : Option PyDateTime
  shipping_fee : ℚ
  shipping_address : Option Addr
  marketing_json : Option MarketingJson
  delivery_config : Option (List ShippingLine)
  extra_info : Option ExtraInfo
deriving DecidableEq, Repr

/-- One `amount["items"]` entry; the unguarded `float`/`int` calls can raise. -/
def itemAmountEntry (it : LItem) : Except PyErr AmountItem := do
  let u ← pyFloat (jOr (jOr it.discounted_unit_price it.price) (.i 0))
  let q ← pyInt (jOr it.quantity (.i 0))
  pure { sku_id := it.sku_id
         original_total := jOr it.original_total (.s "0")
         discounted_total := round2 (u * (q : ℚ)) }

/-- One iteration of the per-group loop (`run_split_orders.py` lines 144-196),
building the row `insert_order` receives for sequence index `i`. -/
def subOrderOf (parent : String) (o : Order) (orderOrig : ℚ) (i : Nat)
    (r : String) (items : List LItem) : Except PyErr SubOrder := do
  let origSub ← items_original_subtotal items
  let discSub ← items_discounted_subtotal_by_unit items
  let sf : ℚ := if i = 1 then (shippingTotals o).2 else 0
  let so : ℚ := if i = 1 then (shippingTotals o).1 else 0
  let amtItems ← items.mapM itemAmountEntry
  pure { parent_order_no := parent
         sub_order_no := parent ++ "-" ++ toString i
         region := r
         amount := { order_original_total := orderOrig
                     order_discounted_total := order_discounted_total_of o
                     sub_order_original_total := round2 (origSub + so)
                     sub_order_discounted_total := round2 (discSub + sf)
                     items := amtItems }
         currency := currency_of o
         payment_status := o.financial_status
         payment_method := payment_method_of o
         items_json := items
         customer_json := raw_to_customer_json o.raw_cust
         order_created_at := parse_created_at o.created_at
         order_updated_at := parse_created_at o.updated_at
         shipping_fee := sf
         shipping_address := o.shipping_address
         marketing_json := marketing_json_of o
         delivery_config := if o.shipping_lines = [] then Option.none
                            else Option.some o.shipping_lines
         extra_info := extra_info_of o }

/-- The `enumerate(sorted(...), 1)` loop over the ordered groups, threading the
1-based sequence index. -/
def buildSubs (parent : String) (o : Order) (orderOrig : ℚ) :
    Nat → List (String × List LItem) → Except PyErr (List SubOrder)
  | _, [] => .ok []
  | i, (r, items) :: rest => do
    let s ← subOrderOf parent o orderOrig i r items
    let ss ← buildSubs parent o orderOrig (i + 1) rest
    pure (s :: ss)

/-- The splitting of one order for a given `parent_order_no`: the order-level
shipping totals and original total (lines 104-120), then the per-group loop. -/
def splitOrder (parent : String) (o : Order) : Except PyErr (List SubOrder) := do
  let origAll ← items_original_subtotal o.line_items
  let orderOrig := round2 (origAll + (shippingTotals o).1)
  buildSubs parent o orderOrig 1 (sortedGroups o.line_items)

/-- A full split run: the parent number is derived from the wall clock and the
order id, everything else from the order content. -/
def splitRun (now : PyDateTime) (o : Order) : Except PyErr (List SubOrder) :=
  splitOrder (make_parent_order_no now o.id) o

/-- The order-level original total `round(items_original_subtotal(line_items)
+ shipping_original_total, 2)`. -/
def orderOriginalTotal (o : Order) : ℚ :=
  round2 (items_original_val o.line_items + (shippingTotals o).1)

/-- Value form of `amount["items"]` when every entry parses. -/
def amtValue (items : List LItem) : List AmountItem :=
  match items.mapM itemAmountEntry with
  | .ok l => l
  | .error _ => []

/-- The value a successful `subOrderOf` returns. -/
def mkSubVal (parent : String) (o : Order) (orderOrig : ℚ) (i : Nat)
    (r : String) (items : List LItem) : SubOrder :=
  { parent_order_no := parent
    sub_order_no := parent ++ "-" ++ toString i
    region := r
    amount := { order_original_total := orderOrig
                order_discounted_total := order_discounted_total_of o
                sub_order_original_total :=
                  round2 (items_original_val items + (if i = 1 then (shippingTotals o).1 else 0))
                sub_order_discounted_total :=
                  round2 (items_discounted_val items + (if i = 1 then (shippingTotals o).2 else 0))
                items := amtValue items }
    currency := currency_of o
    payment_status := o.financial_status
    payment_method := payment_method_of o
    items_json := items
    customer_json := raw_to_customer_json o.raw_cust
    order_created_at := parse_created_at o.created_at
    order_updated_at := parse_created_at o.updated_at
    shipping_fee := if i = 1 then (shippingTotals o).2 else 0
    shipping_address := o.shipping_address
    marketing_json := marketing_json_of o
    delivery_config := if o.shipping_lines = [] then Option.none
                       else Option.some o.shipping_lines
    extra_info := extra_info_of o }

theorem subOrderOf_char (parent : String) (o : Order) (orderOrig : ℚ) (i : Nat)
    (r : String) (items : List LItem) :
    subOrderOf parent o orderOrig i r items
      = match items.mapM itemAmountEntry with
        | .ok _ => .ok (mkSubVal parent o orderOrig i r items)
        | .error e => .error e := by
  unfold subOrderOf
  rw [items_original_ok, items_discounted_ok]
  cases hm : items.mapM itemAmountEntry with
  | ok l =>
    have ha : amtValue items = l := by unfold amtValue; rw [hm]
    simp [Bind.bind, Except.bind, pure, Except.pure, hm, mkSubVal, ha]
  | error e =>
    simp [Bind.bind, Except.bind, pure, Except.pure, hm]

theorem buildSubs_char (parent : String) (o : Order) (orderOrig : ℚ) :
    ∀ (gs : List (String × List LItem)) (i : Nat) (subs : List SubOrder),
    buildSubs parent o orderOrig i gs = .ok subs →
    subs = (List.enumFrom i gs).map fun jg => mkSubVal parent o orderOrig jg.1 jg.2.1 jg.2.2 := by
  intro gs
  induction gs with
  | nil =>
    intro i subs h
    simp only [buildSubs] at h
    simp [← Except.ok.inj h]
  | cons g rest ih =>
    intro i subs h
    obtain ⟨r, items⟩ := g
    simp only [buildSubs] at h
    rw [subOrderOf_char] at h
    cases hm : items.mapM itemAmountEntry with
    | error e => rw [hm] at h; simp [Bind.bind, Except.bind] at h
    | ok l =>
      rw [hm] at h
      simp only [Bind.bind, Except.bind] at h
      cases hb : buildSubs parent o orderOrig (i + 1) rest with
      | error e => rw [hb] at h; simp at h
      | ok ss =>
        rw [hb] at h
        simp only [pure, Except.pure] at h
        rw [List.enumFrom_cons, List.map_cons]
        rw [← Except.ok.inj h, ih (i + 1) ss hb]

theorem splitOrder_eq_buildSubs (parent : String) (o : Order) :
    splitOrder parent o
      = buildSubs parent o (orderOriginalTotal o) 1 (sortedGroups o.line_items) := by
  unfold splitOrder orderOriginalTotal
  rw [items_original_ok]
  simp [Bind.bind, Except.bind]

/-- Master characterization: a successful split is the ordered group list,
enumerated from 1, mapped through `mkSubVal`. -/
theorem splitOrder_char {parent : String} {o : Order} {subs : List SubOrder}
    (h : splitOrder parent o = .ok subs) :
    subs = (List.enumFrom 1 (sortedGroups o.line_items)).map
      fun jg => mkSubVal parent o (orderOriginalTotal o) jg.1 jg.2.1 jg.2.2 := by
  rw [splitOrder_eq_buildSubs] at h
  exact buildSubs_char parent o (orderOriginalTotal o) (sortedGroups o.line_items) 1 subs h

theorem map_enumFrom_eq_map {α β : Type _} (f : Nat × α → β) (g : α → β)
    (hfg : ∀ p : Nat × α, f p = g p.2) :
    ∀ (n : Nat) (l : List α), (List.enumFrom n l).map f = l.map g := by
  intro n l
  induction l generalizing n with
  | nil => simp
  | cons a l ih => simp [List.enumFrom_cons, hfg, ih]

theorem sortedGroups_map_fst (items : List LItem) :
    (sortedGroups items).map (fun g => g.1) = orderedRegions items := by
  rw [sortedGroups_map, List.map_map]
  have hcomp : ((fun g : String × List LItem => g.1) ∘ (fun r => (r, itemsOfRegion items r))) = id :=
    funext fun r => rfl
  rw [hcomp, List.map_id]

theorem sortedGroups_map_snd (items : List LItem) :
    (sortedGroups items).map (fun g => g.2) = (orderedRegions items).map (itemsOfRegion items) := by
  rw [sortedGroups_map, List.map_map]
  rfl

theorem split_subs_length {parent : String} {o : Order} {subs : List SubOrder}
    (h : splitOrder parent o = .ok subs) :
    subs.length = (orderedRegions o.line_items).length := by
  rw [splitOrder_char h, List.length_map, List.enumFrom_length, sortedGroups_map, List.length_map]

theorem orderedRegions_ne_nil (items : List LItem) : orderedRegions items ≠ [] := by
  unfold orderedRegions
  intro hnil
  have hp := List.perm_insertionSort regionLe (fullKeys items)
  rw [hnil] at hp
  have : fullKeys items = [] := hp.symm.eq_nil
  unfold fullKeys at this
  by_cases he : items = []
  · rw [if_pos he] at this; cases this
  · rw [if_neg he] at this; exact regionKeys_ne_nil he this

theorem split_subs_ne_nil {parent : String} {o : Order} {subs : List SubOrder}
    (h : splitOrder parent o = .ok subs) : subs ≠ [] := by
  intro hnil
  have := split_subs_length h
  rw [hnil] at this
  exact orderedRegions_ne_nil o.line_items
    (List.length_eq_zero.mp this.symm)

theorem split_subs_region {parent : String} {o : Order} {subs : List SubOrder}
    (h : splitOrder parent o = .ok subs) :
    subs.map (fun s => s.region) = orderedRegions o.line_items := by
  rw [splitOrder_char h, List.map_map]
  exact (map_enumFrom_eq_map _ (fun g : String × List LItem => g.1) (fun p => rfl) 1 _).trans
    (sortedGroups_map_fst o.line_items)

theorem split_subs_items {parent : String} {o : Order} {subs : List SubOrder}
    (h : splitOrder parent o = .ok subs) :
    subs.map (fun s => s.items_json) = (orderedRegions o.line_items).map (itemsOfRegion o.line_items) := by
  rw [splitOrder_char h, List.map_map]
  exact (map_enumFrom_eq_map _ (fun g : String × List LItem => g.2) (fun p => rfl) 1 _).trans
    (sortedGroups_map_snd o.line_items)

theorem split_subs_get {parent : String} {o : Order} {subs : List SubOrder}
    (h : splitOrder parent o = .ok subs) (j : Nat) (hj : j < subs.length)
    (hj2 : j < (orderedRegions o.line_items).length) :
    subs.get ⟨j, hj⟩ = mkSubVal parent o (orderOriginalTotal o) (1 + j)
      ((orderedRegions o.line_items).get ⟨j, hj2⟩)
      (itemsOfRegion o.line_items ((orderedRegions o.line_items).get ⟨j, hj2⟩)) := by
  have hsubs := splitOrder_char h
  subst hsubs
  simp [List.get_eq_getElem, List.getElem_map, List.getElem_enumFrom, sortedGroups_map]

/-- Partition: the item lists of the produced sub-orders flatten to a
permutation of the input line items. -/
theorem split_partition {parent : String} {o : Order} {subs : List SubOrder}
    (h : splitOrder parent o = .ok subs) :
    (subs.map (fun s => s.items_json)).flatten.Perm o.line_items := by
  rw [split_subs_items h]
  exact flatten_itemsOfRegion (orderedRegions o.line_items) o.line_items
    (nodup_orderedRegions o.line_items)
    (fun it hit => mem_orderedRegions_of_item hit)

theorem orderedRegions_perm_invariant {l₁ l₂ : List LItem} (hp : l₁.Perm l₂) :
    orderedRegions l₁ = orderedRegions l₂ := by
  refine List.eq_of_perm_of_sorted ?_ (sorted_orderedRegions l₁) (sorted_orderedRegions l₂)
  refine (List.perm_ext_iff_of_nodup (nodup_orderedRegions l₁) (nodup_orderedRegions l₂)).mpr
    fun r => ?_
  rw [mem_orderedRegions, mem_orderedRegions]
  constructor
  · rintro (⟨it, hit, hr⟩ | ⟨he, hr⟩)
    · exact Or.inl ⟨it, hp.mem_iff.mp hit, hr⟩
    · exact Or.inr ⟨(he ▸ hp).symm.eq_nil, hr⟩
  · rintro (⟨it, hit, hr⟩ | ⟨he, hr⟩)
    · exact Or.inl ⟨it, hp.mem_iff.mpr hit, hr⟩
    · exact Or.inr ⟨(he ▸ hp.symm).symm.eq_nil, hr⟩

/-- A sub-order with the two time-derived identifier fields
(`parent_order_no`, `sub_order_no`) removed. -/
structure SubOrderContent where
  region : String
  amount : Amount
  currency : String
  payment_status : Option String
  payment_method : Option String
  items_json : List LItem
  customer_json : CustomerJson
  order_created_at : Option PyDateTime
  order_updated_at : Option PyDateTime
  shipping_fee : ℚ
  shipping_address : Option Addr
  marketing_json : Option MarketingJson
  delivery_config : Option (List ShippingLine)
  extra_info : Option ExtraInfo
deriving DecidableEq, Repr

/-- Forget the identifier fields of a sub-order. -/
def stripIds (s : SubOrder) : SubOrderContent :=
  { region := s.region
    amount := s.amount
    currency := s.currency
    payment_status := s.payment_status
    payment_method := s.payment_method
    items_json := s.items_json
    customer_json := s.customer_json
    order_created_at := s.order_created_at
    order_updated_at := s.order_updated_at
    shipping_fee := s.shipping_fee
    shipping_address := s.shipping_address
    marketing_json := s.marketing_json
    delivery_config := s.delivery_config
    extra_info := s.extra_info }

theorem buildSubs_strip (p1 p2 : String) (o : Order) (q : ℚ) :
    ∀ (gs : List (String × List LItem)) (i : Nat),
    (buildSubs p1 o q i gs).map (List.map stripIds)
      = (buildSubs p2 o q i gs).map (List.map stripIds) := by
  intro gs
  induction gs with
  | nil => intro i; rfl
  | cons g rest ih =>
    intro i
    obtain ⟨r, items⟩ := g
    simp only [buildSubs]
    rw [subOrderOf_char, subOrderOf_char]
    cases hm : items.mapM itemAmountEntry with
    | error e => rfl
    | ok l =>
      have ihg := ih (i + 1)
      simp only [Bind.bind, Except.bind]
      cases hb1 : buildSubs p1 o q (i + 1) rest with
      | error e =>
        cases hb2 : buildSubs p2 o q (i + 1) rest with
        | error e2 =>
          rw [hb1, hb2] at ihg
          simp only [Except.map] at ihg
          cases ihg
          rfl
        | ok ss2 =>
          rw [hb1, hb2] at ihg
          simp [Except.map] at ihg
      | ok ss1 =>
        cases hb2 : buildSubs p2 o q (i + 1) rest with
        | error e2 =>
          rw [hb1, hb2] at ihg
          simp [Except.map] at ihg
        | ok ss2 =>
          rw [hb1, hb2] at ihg
          simp only [Except.map, Except.ok.injEq] at ihg
          have hstrip : stripIds (mkSubVal p1 o q i r items)
              = stripIds (mkSubVal p2 o q i r items) := rfl
          simp only [pure, Except.pure, Except.map, List.map_cons, hstrip, ihg]

theorem splitOrder_strip (p1 p2 : String) (o : Order) :
    (splitOrder p1 o).map (List.map stripIds) = (splitOrder p2 o).map (List.map stripIds) := by
  rw [splitOrder_eq_buildSubs, splitOrder_eq_buildSubs]
  exact buildSubs_strip p1 p2 o (orderOriginalTotal o) (sortedGroups o.line_items) 1

theorem mem_itemsOfRegion {it : LItem} {items : List LItem} {r : String} :
    it ∈ itemsOfRegion items r ↔ it ∈ items ∧ itemRegion it = r := by
  unfold itemsOfRegion
  simp [List.mem_filter]

/-- C1: splitting partitions the line items.  Whenever the split of a raw order
succeeds, the item lists of its sub-orders flatten to a permutation of the
order's line items (no item dropped, none duplicated), and every line item
occurrence lies in the item list of exactly one sub-order. -/
theorem C1_split_partitions_line_items
    (parent : String) (o : Order) (subs : List SubOrder)
    (h : splitOrder parent o = .ok subs) :
    (subs.map fun s => s.items_json).flatten.Perm o.line_items ∧
    ∀ it ∈ o.line_items, ∃! j : Fin subs.length, it ∈ (subs.get j).items_json := by
  refine ⟨split_partition h, fun it hit => ?_⟩
  have hlen := split_subs_length h
  have hr : itemRegion it ∈ orderedRegions o.line_items := mem_orderedRegions_of_item hit
  obtain ⟨jk, hjk⟩ := List.mem_iff_get.mp hr
  have hjs : jk.val < subs.length := by rw [hlen]; exact jk.isLt
  refine ⟨⟨jk.val, hjs⟩, ?_, ?_⟩
  · show it ∈ (subs.get ⟨jk.val, hjs⟩).items_json
    rw [split_subs_get h jk.val hjs jk.isLt]
    simp only [mkSubVal]
    refine mem_itemsOfRegion.mpr ⟨hit, ?_⟩
    rw [Fin.eta, hjk]
  · intro j' hj'
    have hj'' : it ∈ (subs.get j').items_json := hj'
    have hj2 : j'.val < (orderedRegions o.line_items).length := by
      rw [← hlen]; exact j'.isLt
    rw [split_subs_get h j'.val j'.isLt hj2] at hj''
    simp only [mkSubVal] at hj''
    have hreg := (mem_itemsOfRegion.mp hj'').2
    have hget : (orderedRegions o.line_items).get ⟨j'.val, hj2⟩
        = (orderedRegions o.line_items).get jk := by
      rw [hjk, ← hreg]
    have hfin := (nodup_orderedRegions o.line_items).get_inj_iff.mp hget
    apply Fin.ext
    simpa using congrArg Fin.val hfin

/-- C5: the split output on every field except the time-derived identifiers is
a deterministic function of the order content: running the split at two
different wall-clock instants yields sub-order lists that agree after the
`parent_order_no`/`sub_order_no` fields are dropped. -/
theorem C5_resplit_content_deterministic (t1 t2 : PyDateTime) (o : Order) :
    (splitRun t1 o).map (List.map stripIds) = (splitRun t2 o).map (List.map stripIds) :=
  splitOrder_strip (make_parent_order_no t1 o.id) (make_parent_order_no t2 o.id) o

/-- C2: whenever an order with at least one shipping line splits successfully,
the sub-order at sequence index 1 (list index 0) carries the entire parsed
shipping original and discounted amounts in its breakdown and `shipping_fee`,
and every other sub-order carries zero shipping. -/
theorem C2_shipping_on_first_suborder
    (parent : String) (o : Order) (subs : List SubOrder)
    (hship : o.shipping_lines ≠ [])
    (h : splitOrder parent o = .ok subs) :
    subs ≠ [] ∧
    ∀ j : Fin subs.length,
      (subs.get j).shipping_fee = (if j.val = 0 then (shippingTotals o).2 else 0) ∧
      (subs.get j).amount.sub_order_discounted_total
        = round2 (items_discounted_val (subs.get j).items_json
            + (if j.val = 0 then (shippingTotals o).2 else 0)) ∧
      (subs.get j).amount.sub_order_original_total
        = round2 (items_original_val (subs.get j).items_json
            + (if j.val = 0 then (shippingTotals o).1 else 0)) := by
  refine ⟨split_subs_ne_nil h, fun j => ?_⟩
  have hj2 : j.val < (orderedRegions o.line_items).length := by
    rw [← split_subs_length h]; exact j.isLt
  have hget := split_subs_get h j.val j.isLt hj2
  rw [Fin.eta] at hget
  rw [hget]
  by_cases hj0 : j.val = 0
  · simp [mkSubVal, hj0]
  · have h1 : ¬(1 + j.val = 1) := by omega
    simp [mkSubVal, hj0, h1]

/-- `regionLe` out of the sentinel region forces the sentinel region. -/
theorem regionLe_other {b : String} (h : regionLe OTHER_REGION b) : b = OTHER_REGION := by
  rcases h with h | ⟨h, _⟩
  · unfold regionRank at h
    rw [if_pos rfl] at h
    by_cases hb : b = OTHER_REGION
    · exact hb
    · rw [if_neg hb] at h; omega
  · unfold regionRank at h
    rw [if_pos rfl] at h
    by_cases hb : b = OTHER_REGION
    · exact hb
    · rw [if_neg hb] at h; omega

/-- C3: sub-orders are numbered `parent-1`, `parent-2`, … contiguously in list
order; the region sequence is the ordered region-key list, sorted by the group
ordering (ascending string order with the "Other" region last, which therefore
occupies the final position when present) with no duplicates; and the region
sequence is invariant under permuting the input line items. -/
theorem C3_suborder_numbering_and_ordering
    (parent : String) (o : Order) (subs : List SubOrder)
    (h : splitOrder parent o = .ok subs) :
    (∀ j : Fin subs.length,
       (subs.get j).sub_order_no = parent ++ "-" ++ toString (j.val + 1)) ∧
    subs.map (fun s => s.region) = orderedRegions o.line_items ∧
    (subs.map fun s => s.region).Sorted regionLe ∧
    (subs.map fun s => s.region).Nodup ∧
    (∀ j : Fin subs.length, (subs.get j).region = OTHER_REGION → j.val + 1 = subs.length) ∧
    ∀ (parent₂ : String) (o₂ : Order) (subs₂ : List SubOrder),
      o.line_items.Perm o₂.line_items → splitOrder parent₂ o₂ = .ok subs₂ →
      subs₂.map (fun s => s.region) = subs.map (fun s => s.region) := by
  have hreg := split_subs_region h
  refine ⟨?_, hreg, ?_, ?_, ?_, ?_⟩
  · intro j
    have hj2 : j.val < (orderedRegions o.line_items).length := by
      rw [← split_subs_length h]; exact j.isLt
    have hget := split_subs_get h j.val j.isLt hj2
    rw [Fin.eta] at hget
    rw [hget]
    simp [mkSubVal, Nat.add_comm]
  · rw [hreg]; exact sorted_orderedRegions o.line_items
  · rw [hreg]; exact nodup_orderedRegions o.line_items
  · intro j hother
    by_contra hne
    have hlt : j.val + 1 < subs.length := by
      have := j.isLt; omega
    have hmaplen : (subs.map fun s => s.region).length = subs.length := List.length_map _ _
    have hsorted : (subs.map fun s => s.region).Sorted regionLe := by
      rw [hreg]; exact sorted_orderedRegions o.line_items
    have hnd : (subs.map fun s => s.region).Nodup := by
      rw [hreg]; exact nodup_orderedRegions o.line_items
    have hpair := List.pairwise_iff_get.mp hsorted
      ⟨j.val, by rw [hmaplen]; exact j.isLt⟩ ⟨j.val + 1, by rw [hmaplen]; exact hlt⟩
      (by simp)
    have hgetj : (subs.map fun s => s.region).get ⟨j.val, by rw [hmaplen]; exact j.isLt⟩
        = OTHER_REGION := by
      rw [List.get_eq_getElem, List.getElem_map]
      rw [List.get_eq_getElem] at hother
      convert hother using 2
    rw [hgetj] at hpair
    have hnext := regionLe_other hpair
    have := hnd.get_inj_iff.mp (hgetj.trans hnext.symm)
    simp at this
  · intro parent₂ o₂ subs₂ hperm h₂
    rw [split_subs_region h₂, hreg]
    exact orderedRegions_perm_invariant hperm.symm

/-! ## Exact-cent arithmetic: when `round(x, 2)` is the identity -/

/-- A rational that is a whole number of cents. -/
def CentQ (q : ℚ) : Prop := ∃ n : ℤ, q = (n : ℚ) / 100

/-- Decidable cent test: `q * 100` has denominator 1. -/
def centB (q : ℚ) : Bool := (q * 100).den == 1

theorem centQ_of_centB {q : ℚ} (h : centB q = true) : CentQ q := by
  unfold centB at h
  have hden : (q * 100).den = 1 := by exact_mod_cast beq_iff_eq.mp h
  refine ⟨(q * 100).num, ?_⟩
  have hnum : ((q * 100).num : ℚ) = q * 100 := (Rat.den_eq_one_iff _).mp hden
  rw [hnum]
  ring

theorem centQ_zero : CentQ 0 := ⟨0, by norm_num⟩

theorem centQ_add {a b : ℚ} (ha : CentQ a) (hb : CentQ b) : CentQ (a + b) := by
  obtain ⟨n, rfl⟩ := ha
  obtain ⟨m, rfl⟩ := hb
  exact ⟨n + m, by push_cast; ring⟩

theorem centQ_sum {l : List ℚ} (h : ∀ q ∈ l, CentQ q) : CentQ l.sum := by
  induction l with
  | nil => simpa using centQ_zero
  | cons a l ih =>
    rw [List.sum_cons]
    exact centQ_add (h a (List.mem_cons_self a l))
      (ih fun q hq => h q (List.mem_cons_of_mem a hq))

theorem rfloor_intCast (n : ℤ) : rfloor (n : ℚ) = n := by
  unfold rfloor
  rw [Rat.num_intCast, Rat.den_intCast]
  rw [Int.fdiv_eq_ediv _ (by norm_num)]
  simp

theorem roundHalfEven_intCast (n : ℤ) : roundHalfEven (n : ℚ) = n := by
  unfold roundHalfEven
  rw [rfloor_intCast]
  simp only [sub_self]
  norm_num

/-- `round(x, 2)` is the identity on whole-cent rationals. -/
theorem round2_centQ {q : ℚ} (h : CentQ q) : round2 q = q := by
  obtain ⟨n, rfl⟩ := h
  unfold round2
  have hmul : (n : ℚ) / 100 * 100 = (n : ℚ) := by field_simp
  rw [hmul, roundHalfEven_intCast]

theorem round2_zero : round2 0 = 0 := round2_centQ centQ_zero

/-- C7 (amended): an order with an empty line-item list splits (successfully,
never an error) into exactly one sub-order with region "Other" and an empty
item list; its totals consist solely of the allocated shipping amounts — in
particular they are zero whenever the parsed shipping amounts are zero. -/
theorem C7_amended_empty_order_single_other_suborder
    (parent : String) (o : Order) (he : o.line_items = []) :
    ∃ s : SubOrder, splitOrder parent o = .ok [s] ∧
      s.region = OTHER_REGION ∧ s.items_json = [] ∧
      s.amount.sub_order_original_total = round2 (shippingTotals o).1 ∧
      s.amount.sub_order_discounted_total = round2 (shippingTotals o).2 ∧
      s.shipping_fee = (shippingTotals o).2 ∧
      (shippingTotals o = (0, 0) →
        s.amount.sub_order_original_total = 0 ∧ s.amount.sub_order_discounted_total = 0) := by
  have hgs : sortedGroups o.line_items = [(OTHER_REGION, [])] := by
    rw [he]
    rfl
  refine ⟨mkSubVal parent o (orderOriginalTotal o) 1 OTHER_REGION [], ?_, rfl, rfl, ?_, ?_, ?_, ?_⟩
  · rw [splitOrder_eq_buildSubs, hgs]
    simp only [buildSubs, subOrderOf_char]
    have hmap : List.mapM itemAmountEntry ([] : List LItem) = .ok [] := rfl
    rw [hmap]
    rfl
  · show round2 (items_original_val [] + (if 1 = 1 then (shippingTotals o).1 else 0))
      = round2 (shippingTotals o).1
    have : items_original_val [] = 0 := by
      unfold items_original_val
      simpa using round2_zero
    rw [this, if_pos rfl, zero_add]
  · show round2 (items_discounted_val [] + (if 1 = 1 then (shippingTotals o).2 else 0))
      = round2 (shippingTotals o).2
    have : items_discounted_val [] = 0 := by
      unfold items_discounted_val
      simpa using round2_zero
    rw [this, if_pos rfl, zero_add]
  · show (if 1 = 1 then (shippingTotals o).2 else 0) = (shippingTotals o).2
    rw [if_pos rfl]
  · intro hz
    constructor
    · show round2 (items_original_val [] + (if 1 = 1 then (shippingTotals o).1 else 0)) = 0
      have h0 : items_original_val [] = 0 := by
        unfold items_original_val
        simpa using round2_zero
      rw [h0, if_pos rfl, zero_add, hz, round2_zero]
    · show round2 (items_discounted_val [] + (if 1 = 1 then (shippingTotals o).2 else 0)) = 0
      have h0 : items_discounted_val [] = 0 := by
        unfold items_discounted_val
        simpa using round2_zero
      rw [h0, if_pos rfl, zero_add, hz, round2_zero]

theorem mem_sortedGroups {items : List LItem} {g : String × List LItem} :
    g ∈ sortedGroups items ↔ ∃ r ∈ orderedRegions items, g = (r, itemsOfRegion items r) := by
  rw [sortedGroups_map, List.mem_map]
  constructor
  · rintro ⟨r, hr, rfl⟩; exact ⟨r, hr, rfl⟩
  · rintro ⟨r, hr, rfl⟩; exact ⟨r, hr, rfl⟩

theorem sortedGroups_ne_nil (items : List LItem) : sortedGroups items ≠ [] := by
  rw [sortedGroups_map]
  intro hnil
  exact orderedRegions_ne_nil items (List.map_eq_nil_iff.mp hnil)

theorem sum_map_add {α : Type _} (l : List α) (f g : α → ℚ) :
    (l.map fun x => f x + g x).sum = (l.map f).sum + (l.map g).sum := by
  induction l with
  | nil => simp
  | cons a l ih => simp [ih]; ring

theorem sum_map_pairs_eq_flatten (gs : List (String × List LItem)) (f : LItem → ℚ) :
    (gs.map fun p => (p.2.map f).sum).sum = ((gs.map fun p => p.2).flatten.map f).sum := by
  induction gs with
  | nil => simp
  | cons a gs ih => simp [List.flatten_cons, List.map_append, List.sum_append, ih]

theorem sum_enumFrom_ite_zero {α : Type _} (sf : ℚ) :
    ∀ (l : List α) (i : Nat), 1 < i →
    ((List.enumFrom i l).map fun jg => if jg.1 = 1 then sf else 0).sum = 0 := by
  intro l
  induction l with
  | nil => intro i _; simp
  | cons a l ih =>
    intro i hi
    rw [List.enumFrom_cons, List.map_cons, List.sum_cons, if_neg (by omega), zero_add]
    exact ih (i + 1) (by omega)

theorem sum_enumFrom_ite {α : Type _} (sf : ℚ) (l : List α) (hl : l ≠ []) :
    ((List.enumFrom 1 l).map fun jg => if jg.1 = 1 then sf else 0).sum = sf := by
  cases l with
  | nil => exact absurd rfl hl
  | cons a l =>
    rw [List.enumFrom_cons, List.map_cons, List.sum_cons, if_pos rfl,
      sum_enumFrom_ite_zero sf l 2 (by omega), add_zero]

/-- C4 (amended): for an order whose per-unit item values and parsed shipping
fee are whole cents and whose reported discounted total parses to exactly
their sum, the sum of the produced sub-orders' discounted totals differs from
the reported total by at most 0.02 (here, by exactly 0); and every sub-order
stores the reported total verbatim in its breakdown (pass-through, never
recomputed).  The split path itself performs no reconciliation check: the
computed values are produced unconditionally (see the counterexample below for
an order violating the tolerance that splits and persists all the same). -/
theorem C4_discounted_totals_reconcile
    (parent : String) (o : Order) (subs : List SubOrder) (T : ℚ)
    (h : splitOrder parent o = .ok subs)
    (hitems : ∀ it ∈ o.line_items, centB (itemUnitQtyVal it) = true)
    (hship : centB (shippingTotals o).2 = true)
    (hT : pyFloat (.s (order_discounted_total_of o)) = .ok T)
    (hsum : T = (o.line_items.map itemUnitQtyVal).sum + (shippingTotals o).2) :
    |(subs.map fun s => s.amount.sub_order_discounted_total).sum - T| ≤ 2 / 100 ∧
    ∀ s ∈ subs, s.amount.order_discounted_total = order_discounted_total_of o := by
  constructor
  · have hmain : ∀ jg ∈ List.enumFrom 1 (sortedGroups o.line_items),
        round2 (items_discounted_val jg.2.2 + (if jg.1 = 1 then (shippingTotals o).2 else 0))
          = (jg.2.2.map itemUnitQtyVal).sum + (if jg.1 = 1 then (shippingTotals o).2 else 0) := by
      intro jg hjg
      have h2 : jg.2 ∈ sortedGroups o.line_items := by
        have hm : jg.2 ∈ (List.enumFrom 1 (sortedGroups o.line_items)).map Prod.snd :=
          List.mem_map_of_mem Prod.snd hjg
        rwa [List.enumFrom_map_snd] at hm
      obtain ⟨r, _, hrg⟩ := mem_sortedGroups.mp h2
      have hsub : ∀ it ∈ jg.2.2, it ∈ o.line_items := by
        intro it hit
        have : jg.2.2 = itemsOfRegion o.line_items r := congrArg Prod.snd hrg
        rw [this] at hit
        exact (mem_itemsOfRegion.mp hit).1
      have hcent : ∀ q ∈ jg.2.2.map itemUnitQtyVal, CentQ q := by
        intro q hq
        obtain ⟨it, hit, rfl⟩ := List.mem_map.mp hq
        exact centQ_of_centB (hitems it (hsub it hit))
      have hsumcent : CentQ (jg.2.2.map itemUnitQtyVal).sum := centQ_sum hcent
      have hval : items_discounted_val jg.2.2 = (jg.2.2.map itemUnitQtyVal).sum := by
        unfold items_discounted_val
        exact round2_centQ hsumcent
      rw [hval]
      refine round2_centQ (centQ_add hsumcent ?_)
      by_cases h1 : jg.1 = 1
      · simpa [h1] using centQ_of_centB hship
      · simpa [h1] using centQ_zero
    have hA : subs.map (fun s => s.amount.sub_order_discounted_total)
        = (List.enumFrom 1 (sortedGroups o.line_items)).map
            (fun jg => round2 (items_discounted_val jg.2.2
              + (if jg.1 = 1 then (shippingTotals o).2 else 0))) := by
      rw [splitOrder_char h, List.map_map]
      rfl
    rw [hA, List.map_congr_left hmain, sum_map_add]
    have hpart1 : ((List.enumFrom 1 (sortedGroups o.line_items)).map
        fun jg => (jg.2.2.map itemUnitQtyVal).sum).sum
          = (o.line_items.map itemUnitQtyVal).sum := by
      rw [map_enumFrom_eq_map _
        (fun p : String × List LItem => (p.2.map itemUnitQtyVal).sum) (fun p => rfl)]
      rw [sum_map_pairs_eq_flatten]
      refine List.Perm.sum_eq (List.Perm.map itemUnitQtyVal ?_)
      rw [sortedGroups_map_snd]
      exact flatten_itemsOfRegion (orderedRegions o.line_items) o.line_items
        (nodup_orderedRegions o.line_items) (fun it hit => mem_orderedRegions_of_item hit)
    have hpart2 : ((List.enumFrom 1 (sortedGroups o.line_items)).map
        fun jg => if jg.1 = 1 then (shippingTotals o).2 else 0).sum = (shippingTotals o).2 :=
      sum_enumFrom_ite _ _ (sortedGroups_ne_nil o.line_items)
    rw [hpart1, hpart2, ← hsum, sub_self, abs_zero]
    norm_num
  · intro s hs
    rw [splitOrder_char h] at hs
    obtain ⟨jg, _, rfl⟩ := List.mem_map.mp hs
    rfl

/-! ## C10: only the first shipping line's amounts enter any monetary output -/

/-- The monetary outputs of one sub-order: region, allocated shipping fee and
the whole amount breakdown. -/
def moneyView (s : SubOrder) : String × ℚ × Amount := (s.region, s.shipping_fee, s.amount)

theorem buildSubs_money (parent : String) (o₁ o₂ : Order) (q : ℚ)
    (hmv : ∀ (i : Nat) (r : String) (items : List LItem),
      moneyView (mkSubVal parent o₁ q i r items) = moneyView (mkSubVal parent o₂ q i r items)) :
    ∀ (gs : List (String × List LItem)) (i : Nat),
    (buildSubs parent o₁ q i gs).map (List.map moneyView)
      = (buildSubs parent o₂ q i gs).map (List.map moneyView) := by
  intro gs
  induction gs with
  | nil => intro i; rfl
  | cons g rest ih =>
    intro i
    obtain ⟨r, items⟩ := g
    simp only [buildSubs]
    rw [subOrderOf_char, subOrderOf_char]
    cases hm : items.mapM itemAmountEntry with
    | error e => rfl
    | ok l =>
      have ihg := ih (i + 1)
      simp only [Bind.bind, Except.bind]
      cases hb1 : buildSubs parent o₁ q (i + 1) rest with
      | error e =>
        cases hb2 : buildSubs parent o₂ q (i + 1) rest with
        | error e2 =>
          rw [hb1, hb2] at ihg
          simp only [Except.map] at ihg
          cases ihg
          rfl
        | ok ss2 =>
          rw [hb1, hb2] at ihg
          simp [Except.map] at ihg
      | ok ss1 =>
        cases hb2 : buildSubs parent o₂ q (i + 1) rest with
        | error e2 =>
          rw [hb1, hb2] at ihg
          simp [Except.map] at ihg
        | ok ss2 =>
          rw [hb1, hb2] at ihg
          simp only [Except.map, Except.ok.injEq] at ihg
          simp only [pure, Except.pure, Except.map, List.map_cons, hmv i r items, ihg]

/-- C10: with more than one shipping line, every monetary output of the split
(region, shipping_fee, and the entire amount breakdown of every sub-order) is
unchanged when the shipping lines after the first are replaced arbitrarily —
only the first line's amounts enter the monetary computations — while the full
shipping-line list is stored verbatim in each sub-order's delivery
configuration. -/
theorem C10_rest_shipping_lines_ignored_in_money
    (parent : String) (o : Order) (l0 : ShippingLine) (rest rest' : List ShippingLine) :
    ((splitOrder parent { o with shipping_lines := l0 :: rest }).map (List.map moneyView)
      = (splitOrder parent { o with shipping_lines := l0 :: rest' }).map (List.map moneyView)) ∧
    ∀ subs : List SubOrder,
      splitOrder parent { o with shipping_lines := l0 :: rest } = .ok subs →
      subs.map (fun s => s.delivery_config)
        = List.replicate subs.length (Option.some (l0 :: rest)) := by
  constructor
  · have hship : shippingTotals { o with shipping_lines := l0 :: rest }
        = shippingTotals { o with shipping_lines := l0 :: rest' } := rfl
    have horig : orderOriginalTotal { o with shipping_lines := l0 :: rest }
        = orderOriginalTotal { o with shipping_lines := l0 :: rest' } := by
      unfold orderOriginalTotal
      rw [hship]
    have hmv : ∀ (i : Nat) (r : String) (items : List LItem),
        moneyView (mkSubVal parent { o with shipping_lines := l0 :: rest }
          (orderOriginalTotal { o with shipping_lines := l0 :: rest }) i r items)
        = moneyView (mkSubVal parent { o with shipping_lines := l0 :: rest' }
          (orderOriginalTotal { o with shipping_lines := l0 :: rest }) i r items) := by
      intro i r items
      unfold moneyView mkSubVal
      rw [hship]
      rfl
    rw [splitOrder_eq_buildSubs, splitOrder_eq_buildSubs, ← horig]
    exact buildSubs_money parent _ _ _ hmv _ 1
  · intro subs h
    have hsubs := splitOrder_char h
    subst hsubs
    rw [List.map_map, List.length_map]
    have hfun : ((fun s : SubOrder => s.delivery_config)
        ∘ fun jg : Nat × (String × List LItem) =>
          mkSubVal parent { o with shipping_lines := l0 :: rest }
            (orderOriginalTotal { o with shipping_lines := l0 :: rest }) jg.1 jg.2.1 jg.2.2)
        = fun _ => Option.some (l0 :: rest) := by
      funext jg
      simp [mkSubVal, Function.comp]
    rw [hfun, List.map_const']

/-! ## Export formatter (`app/export_csv.py`) -/

/-- The fixed 20-column header row `EXPORT_HEADERS`. -/
def EXPORT_HEADERS : List String :=
  ["订单号", "店铺账号", "SKU", "属性", "数量", "单价", "币种", "发货仓库",
   "买家姓名", "地址1", "城市", "省/州", "区县", "国家二字码", "邮编", "手机",
   "Email", "买家备注", "下单时间", "客服备注"]

/-- Days since 1970-01-01 of a proleptic-Gregorian civil date
(standard era/year-of-era computation with truncating division). -/
def daysFromCivil (year : Int) (month day : Nat) : Int :=
  let y : Int := if month ≤ 2 then year - 1 else year
  let era : Int := (if 0 ≤ y then y else y - 399).tdiv 400
  let yoe : Int := y - era * 400
  let mp : Int := if month > 2 then (month : Int) - 3 else (month : Int) + 9
  let doy : Int := (153 * mp + 2).tdiv 5 + (day : Int) - 1
  let doe : Int := yoe * 365 + yoe.tdiv 4 - yoe.tdiv 100 + doy
  era * 146097 + doe - 719468

/-- Civil date of a day count since 1970-01-01 (inverse of `daysFromCivil`). -/
def civilFromDays (z0 : Int) : Int × Nat × Nat :=
  let z : Int := z0 + 719468
  let era : Int := (if 0 ≤ z then z else z - 146096).tdiv 146097
  let doe : Int := z - era * 146097
  let yoe : Int := (doe - doe.tdiv 1460 + doe.tdiv 36524 - doe.tdiv 146096).tdiv 365
  let y : Int := yoe + era * 400
  let doy : Int := doe - (365 * yoe + yoe.tdiv 4 - yoe.tdiv 100)
  let mp : Int := (5 * doy + 2).tdiv 153
  let d : Int := doy - (153 * mp + 2).tdiv 5 + 1
  let m : Int := if mp < 10 then mp + 3 else mp - 9
  (if m ≤ 2 then y + 1 else y, m.toNat, d.toNat)

/-- `_format_order_created_at`: `None` gives `""`; a naive instant is tagged
UTC; the instant is converted to UTC+8 and rendered `%Y-%m-%d %H:%M:%S`. -/
def _format_order_created_at (dt : Option PyDateTime) : String :=
  match dt with
  | Option.none => ""
  | Option.some dt =>
    let tz : Int := dt.tzMinutes.getD 0
    let total : Int := daysFromCivil (dt.year : Int) dt.month dt.day * 1440
      + (dt.hour : Int) * 60 + (dt.minute : Int) - tz + 480
    let days : Int := total.fdiv 1440
    let rem : Int := total - days * 1440
    let ymd := civilFromDays days
    padNum 4 ymd.1.toNat ++ "-" ++ padNum 2 ymd.2.1 ++ "-" ++ padNum 2 ymd.2.2 ++ " " ++
      padNum 2 (rem.tdiv 60).toNat ++ ":" ++ padNum 2 (rem - rem.tdiv 60 * 60).toNat ++ ":" ++
      padNum 2 dt.second

/-- One `orders` row as fed to the export (`get_orders_for_export` columns);
the JSONB columns arrive already decoded as structured values. -/
structure ExportOrder where
  parent_order_no : String := ""
  sub_order_no : String := ""
  items_json : List LItem := []
  customer_json : CustomerJson := {}
  extra_info : Option ExtraInfo := Option.none
  order_created_at : Option PyDateTime := Option.none
deriving DecidableEq, Repr

/-- `_order_row_to_csv_rows`: one fixed-20-column row per line item. -/
def _order_row_to_csv_rows (order : ExportOrder) (shop_account : String) :
    List (List String) :=
  let extra := order.extra_info.getD {}
  let customer := order.customer_json
  let shopify_name := extra.shopify_order_name
  let order_no := if shopify_name ≠ "" then shopify_name ++ "-" ++ order.sub_order_no
    else order.sub_order_no
  let addr1 := customer.address1.getD ""
  let addr2 := customer.address2.getD ""
  let address1 := if addr2 ≠ "" then pyStrip (addr1 ++ " " ++ addr2) else addr1
  let order_created_str := _format_order_created_at order.order_created_at
  let buyer_note := extra.note.getD ""
  let staff_note := extra.staff_note.getD ""
  order.items_json.map fun it =>
    [order_no,
     shop_account,
     pyStrRepr (jOr it.sku_id (.s "")),
     it.variant_title.getD "",
     pyStrRepr (jOr it.quantity (.s "")),
     pyStrRepr (jOr (jOr it.discounted_unit_price it.price) (.s "0")),
     "TWD",
     "默认仓库",
     customer.name.getD "",
     address1,
     customer.city.getD "",
     "台湾",
     customer.city.getD "",
     "tw",
     customer.zip.getD "",
     customer.phone.getD "",
     customer.email.getD "",
     buyer_note,
     order_created_str,
     staff_note]

/-- `export_orders_to_csv`: write the header, then every item row of every
order, incrementing `total_rows` per written row; the pair is (rows written,
returned row count). -/
def export_orders_to_csv (orders : List ExportOrder) (shop_account : String) :
    List (List String) × Nat :=
  orders.foldl
    (fun st order =>
      (_order_row_to_csv_rows order shop_account).foldl
        (fun st2 row => (st2.1 ++ [row], st2.2 + 1)) st)
    ([EXPORT_HEADERS], 1)

theorem rows_foldl_char (rows : List (List String)) :
    ∀ st : List (List String) × Nat,
    rows.foldl (fun st2 row => (st2.1 ++ [row], st2.2 + 1)) st
      = (st.1 ++ rows, st.2 + rows.length) := by
  induction rows with
  | nil => intro st; simp
  | cons r rows ih =>
    intro st
    rw [List.foldl_cons, ih]
    simp only [Prod.mk.injEq, List.length_cons]
    exact ⟨by simp, by omega⟩

theorem export_foldl_char (shop_account : String) (orders : List ExportOrder) :
    ∀ st : List (List String) × Nat,
    orders.foldl
      (fun st order =>
        (_order_row_to_csv_rows order shop_account).foldl
          (fun st2 row => (st2.1 ++ [row], st2.2 + 1)) st) st
      = (st.1 ++ orders.flatMap (fun o => _order_row_to_csv_rows o shop_account),
         st.2 + (orders.map fun o => (_order_row_to_csv_rows o shop_account).length).sum) := by
  induction orders with
  | nil => intro st; simp
  | cons o orders ih =>
    intro st
    rw [List.foldl_cons, rows_foldl_char, ih]
    simp [List.flatMap_cons, List.append_assoc]
    omega

/-- C8: exporting `N` sub-order rows that together hold `M` line items writes
exactly `M + 1` rows (the fixed header plus one row per line item, even when
there are no data rows), and the returned count equals the number of rows
written, header included. -/
theorem C8_export_row_count (orders : List ExportOrder) (shop_account : String) :
    (export_orders_to_csv orders shop_account).2
      = 1 + (orders.map fun o => o.items_json.length).sum ∧
    (export_orders_to_csv orders shop_account).1.length
      = (export_orders_to_csv orders shop_account).2 := by
  unfold export_orders_to_csv
  rw [export_foldl_char]
  constructor
  · simp only [List.length_singleton]
    congr 1
    refine congrArg List.sum (List.map_congr_left fun o _ => ?_)
    unfold _order_row_to_csv_rows
    rw [List.length_map]
  · simp only [List.length_append, List.length_flatMap, List.length_singleton]
    have hc : List.map (List.length ∘ fun o => _order_row_to_csv_rows o shop_account) orders
        = List.map (fun o => (_order_row_to_csv_rows o shop_account).length) orders :=
      List.map_congr_left fun o _ => rfl
    have hs := congrArg List.sum hc
    omega

/-- C9: the three reconciliation subtotal functions are total over arbitrary
loosely-typed item records: whatever the type or absence of the numeric fields,
each returns a number (never an uncaught exception), equal to the 2dp-rounded
sum of per-item contributions in which an unparsable or missing field's
contribution resolves to 0 (the `…Val` functions value a failed item body at 0). -/
theorem C9_subtotal_functions_total_and_defensive :
    ∀ items : List LItem,
      items_subtotal items = .ok (round2 (items.map itemSubtotalVal).sum) ∧
      items_discounted_subtotal_by_unit items = .ok (round2 (items.map itemUnitQtyVal).sum) ∧
      items_original_subtotal items = .ok (round2 (items.map itemOriginalVal).sum) :=
  fun items => ⟨items_subtotal_ok items, items_discounted_ok items, items_original_ok items⟩

/-! ## Idempotent persistence (`delete_orders_by_shopify_order` + `insert_order`) -/

/-- Effect of `delete_orders_by_shopify_order` on the sub-order rows stored for
one `(shop_id, shopify_order_id)` key: all rows for the key are removed. -/
def delete_orders_state (_st : List SubOrder) : List SubOrder := []

/-- Effect of one `insert_order` call: append one row for the key. -/
def insert_order_state (st : List SubOrder) (s : SubOrder) : List SubOrder := st ++ [s]

/-- The successive states during the insert loop, starting from `st`. -/
def insertStates : List SubOrder → List SubOrder → List (List SubOrder)
  | st, [] => [st]
  | st, s :: rest => st :: insertStates (insert_order_state st s) rest

/-- Every state observable during the replace pass of `run_split_orders`
(lines 93 and 176): the prior state, the state after the delete, and the state
after each single-row insert.  There is no enclosing transaction in the source,
so each of these states is externally visible and is where a failure can stop. -/
def replaceTrace (old new : List SubOrder) : List (List SubOrder) :=
  old :: insertStates (delete_orders_state old) new

theorem insertStates_ne_nil : ∀ (l : List SubOrder) (st : List SubOrder),
    insertStates st l ≠ [] := by
  intro l st
  cases l <;> simp [insertStates]

theorem insertStates_getLast? :
    ∀ (l : List SubOrder) (st : List SubOrder),
    (insertStates st l).getLast? = Option.some (st ++ l) := by
  intro l
  induction l with
  | nil => intro st; simp [insertStates]
  | cons s rest ih =>
    intro st
    show (st :: insertStates (insert_order_state st s) rest).getLast? = _
    cases rest with
    | nil => simp [insertStates, insert_order_state]
    | cons r rest' =>
      have h := ih (insert_order_state st s)
      have hshape : insertStates (insert_order_state st s) (r :: rest')
          = insert_order_state st s
            :: insertStates (insert_order_state (insert_order_state st s) r) rest' := rfl
      rw [hshape, List.getLast?_cons_cons, ← hshape, h]
      simp [insert_order_state]

theorem mem_insertStates :
    ∀ (l : List SubOrder) (q st : List SubOrder),
    st ∈ insertStates q l → ∃ k : Nat, st = q ++ l.take k := by
  intro l
  induction l with
  | nil =>
    intro q st hst
    simp [insertStates] at hst
    exact ⟨0, by simp [hst]⟩
  | cons s rest ih =>
    intro q st hst
    rcases List.mem_cons.mp hst with he | hm
    · exact ⟨0, by simp [he]⟩
    · obtain ⟨k, hk⟩ := ih (insert_order_state q s) st hm
      exact ⟨k + 1, by simp [hk, insert_order_state, List.take_succ_cons]⟩

/-- C6 (amended): the replace pass is a bare delete followed by row-by-row
inserts with no transaction.  A pass that runs to completion leaves exactly the
new sub-order set (full replacement, so retrying to completion restores the
state), but every intermediate state — the empty state after the delete and
each proper prefix of the new set — is externally observable and is where a
mid-operation failure leaves the store. -/
theorem C6_amended_replace_completes_but_not_atomic (old new : List SubOrder) :
    (replaceTrace old new).getLast? = Option.some new ∧
    ∀ st ∈ replaceTrace old new, st = old ∨ ∃ k : Nat, st = new.take k := by
  constructor
  · unfold replaceTrace
    cases new with
    | nil => simp [insertStates, delete_orders_state]
    | cons s rest =>
      have hshape : insertStates (delete_orders_state old) (s :: rest)
          = delete_orders_state old
            :: insertStates (insert_order_state (delete_orders_state old) s) rest := rfl
      rw [hshape, List.getLast?_cons_cons, ← hshape, insertStates_getLast?]
      simp [delete_orders_state]
  · intro st hst
    rcases List.mem_cons.mp hst with he | hm
    · exact Or.inl he
    · obtain ⟨k, hk⟩ := mem_insertStates new (delete_orders_state old) st hm
      exact Or.inr ⟨k, by simpa [delete_orders_state] using hk⟩

/-- A minimal concrete sub-order row, distinguished by its parent number. -/
def c6sub (tag : String) : SubOrder :=
  { parent_order_no := tag
    sub_order_no := tag ++ "-1"
    region := OTHER_REGION
    amount := { order_original_total := 0
                order_discounted_total := "0"
                sub_order_original_total := 0
                sub_order_discounted_total := 0
                items := [] }
    currency := "TWD"
    payment_status := Option.none
    payment_method := Option.none
    items_json := []
    customer_json := {}
    order_created_at := Option.none
    order_updated_at := Option.none
    shipping_fee := 0
    shipping_address := Option.none
    marketing_json := Option.none
    delivery_config := Option.none
    extra_info := Option.none }

/-- C6 counterexample: replacing one old sub-order by a two-element new set
passes through the state holding only the first new row — a state that is
neither "all old" nor "all new", refuting atomic replace semantics. -/
theorem C6_counterexample_partial_state_observable :
    [c6sub "A"] ∈ replaceTrace [c6sub "OLD"] [c6sub "A", c6sub "B"] ∧
    [c6sub "A"] ≠ [c6sub "OLD"] ∧
    [c6sub "A"] ≠ [c6sub "A", c6sub "B"] := by
  refine ⟨?_, ?_, ?_⟩
  · have htrace : replaceTrace [c6sub "OLD"] [c6sub "A", c6sub "B"]
        = [[c6sub "OLD"], [], [c6sub "A"], [c6sub "A", c6sub "B"]] := rfl
    rw [htrace]
    exact List.mem_cons_of_mem _ (List.mem_cons_of_mem _ (List.mem_cons_self _ _))
  · intro h
    have hhead : ([c6sub "A"].headD (c6sub "X")).parent_order_no
        = ([c6sub "OLD"].headD (c6sub "X")).parent_order_no :=
      congrArg (fun l => (l.headD (c6sub "X")).parent_order_no) h
    exact absurd hhead (by decide)
  · intro h
    simpa using congrArg List.length h

/-- A concrete order with no line items but a 3.00 shipping line. -/
def c7order : Order :=
  { id := 7
    total_price := "3.00"
    total_shipping_price := Option.some "3.00"
    shipping_lines := [{ title := .s "Standard"
                         original_amount := .s "3.00"
                         discounted_amount := .s "3.00"
                         discounted_presentment_amount := .s "3.00" }] }

/-- C7 counterexample: an order with an empty line-item list but a 3.00
shipping line splits into one "Other" sub-order with empty items whose
discounted and original totals are 3, not zero — the shipping allocation lands
on the lone sub-order, refuting the "zero totals" part of the claim. -/
theorem C7_counterexample_shipping_makes_totals_nonzero :
    c7order.line_items = [] ∧
    ∃ s : SubOrder, splitOrder "P" c7order = .ok [s] ∧
      s.region = OTHER_REGION ∧ s.items_json = [] ∧
      s.amount.sub_order_discounted_total = 3 ∧
      s.amount.sub_order_original_total = 3 ∧
      s.amount.sub_order_discounted_total ≠ 0 := by
  have hship : shippingTotals c7order = (3, 3) := by with_unfolding_all rfl
  have hgs : sortedGroups c7order.line_items = [(OTHER_REGION, [])] := rfl
  refine ⟨rfl, mkSubVal "P" c7order (orderOriginalTotal c7order) 1 OTHER_REGION [], ?_,
    rfl, rfl, ?_, ?_, ?_⟩
  · rw [splitOrder_eq_buildSubs, hgs]
    simp only [buildSubs, subOrderOf_char]
    have hmap : List.mapM itemAmountEntry ([] : List LItem) = .ok [] := rfl
    rw [hmap]
    rfl
  · show round2 (items_discounted_val [] + (if 1 = 1 then (shippingTotals c7order).2 else 0)) = 3
    have h0 : items_discounted_val [] = 0 := by
      unfold items_discounted_val
      simpa using round2_zero
    rw [h0, if_pos rfl, zero_add, hship]
    show round2 3 = 3
    have : (3 : ℚ) = (300 : ℤ) / 100 := by norm_num
    rw [this]
    exact round2_centQ ⟨300, rfl⟩
  · show round2 (items_original_val [] + (if 1 = 1 then (shippingTotals c7order).1 else 0)) = 3
    have h0 : items_original_val [] = 0 := by
      unfold items_original_val
      simpa using round2_zero
    rw [h0, if_pos rfl, zero_add, hship]
    show round2 3 = 3
    have : (3 : ℚ) = (300 : ℤ) / 100 := by norm_num
    rw [this]
    exact round2_centQ ⟨300, rfl⟩
  · show round2 (items_discounted_val [] + (if 1 = 1 then (shippingTotals c7order).2 else 0)) ≠ 0
    have h0 : items_discounted_val [] = 0 := by
      unfold items_discounted_val
      simpa using round2_zero
    rw [h0, if_pos rfl, zero_add, hship]
    show round2 3 ≠ 0
    have h3 : (3 : ℚ) = (300 : ℤ) / 100 := by norm_num
    rw [h3, round2_centQ ⟨300, rfl⟩]
    norm_num

/-! ## Concrete witness data -/

/-- A mapped line item: variant 天壇天公廟 (region 台南), unit 10.00, qty 1. -/
def wItemA : LItem :=
  { sku_id := .i 1
    variant_title := Option.some "天壇天公廟"
    quantity := .i 1
    price := .s "10.00"
    original_unit_price := .s "10.00"
    original_total := .s "10.00" }

/-- An unmapped line item (region 其他), discounted unit 5.50, qty 2. -/
def wItemB : LItem :=
  { sku_id := .i 2
    variant_title := Option.some "Blue"
    quantity := .i 2
    price := .s "5.50"
    discounted_unit_price := .s "5.50"
    original_total := .s "11.00" }

/-- The 3.00 shipping line of the witness order. -/
def wLine0 : ShippingLine :=
  { original_amount := .s "3.00"
    discounted_amount := .s "3.00"
    discounted_presentment_amount := .s "3.00" }

/-- A second shipping line whose amounts must not affect any money. -/
def wLineX : ShippingLine :=
  { title := .s "extra"
    original_amount := .s "99.00"
    discounted_amount := .s "99.00"
    discounted_presentment_amount := .s "99.00" }

/-- A concrete well-formed two-region order: items 10.00 + 2×5.50 and 3.00
shipping, reported total 24.00. -/
def wOrder : Order :=
  { id := 42
    name := "#1001"
    total_price := "24.00"
    currency := "TWD"
    line_items := [wItemA, wItemB]
    total_shipping_price := Option.some "3.00"
    shipping_lines := [wLine0] }

/-- The sub-orders the split of `wOrder` produces. -/
def wSubs : List SubOrder :=
  match splitOrder "P" wOrder with
  | .ok l => l
  | .error _ => []

theorem C1_split_partitions_line_items_witness :
    splitOrder "P" wOrder = .ok wSubs ∧
    ((wSubs.map fun s => s.items_json).flatten.Perm wOrder.line_items ∧
     ∀ it ∈ wOrder.line_items, ∃! j : Fin wSubs.length, it ∈ (wSubs.get j).items_json) :=
  have h : splitOrder "P" wOrder = .ok wSubs := by with_unfolding_all rfl
  ⟨h, C1_split_partitions_line_items "P" wOrder wSubs h⟩

theorem C2_shipping_on_first_suborder_witness :
    wOrder.shipping_lines ≠ [] ∧ splitOrder "P" wOrder = .ok wSubs ∧
    (wSubs ≠ [] ∧
     ∀ j : Fin wSubs.length,
       (wSubs.get j).shipping_fee = (if j.val = 0 then (shippingTotals wOrder).2 else 0) ∧
       (wSubs.get j).amount.sub_order_discounted_total
         = round2 (items_discounted_val (wSubs.get j).items_json
             + (if j.val = 0 then (shippingTotals wOrder).2 else 0)) ∧
       (wSubs.get j).amount.sub_order_original_total
         = round2 (items_original_val (wSubs.get j).items_json
             + (if j.val = 0 then (shippingTotals wOrder).1 else 0))) :=
  have h1 : wOrder.shipping_lines ≠ [] := by decide
  have h2 : splitOrder "P" wOrder = .ok wSubs := by with_unfolding_all rfl
  ⟨h1, h2, C2_shipping_on_first_suborder "P" wOrder wSubs h1 h2⟩

theorem C3_suborder_numbering_and_ordering_witness :
    splitOrder "P" wOrder = .ok wSubs ∧
    ((∀ j : Fin wSubs.length,
        (wSubs.get j).sub_order_no = "P" ++ "-" ++ toString (j.val + 1)) ∧
     wSubs.map (fun s => s.region) = orderedRegions wOrder.line_items ∧
     (wSubs.map fun s => s.region).Sorted regionLe ∧
     (wSubs.map fun s => s.region).Nodup ∧
     (∀ j : Fin wSubs.length, (wSubs.get j).region = OTHER_REGION → j.val + 1 = wSubs.length) ∧
     ∀ (parent₂ : String) (o₂ : Order) (subs₂ : List SubOrder),
       wOrder.line_items.Perm o₂.line_items → splitOrder parent₂ o₂ = .ok subs₂ →
       subs₂.map (fun s => s.region) = wSubs.map (fun s => s.region)) :=
  have h : splitOrder "P" wOrder = .ok wSubs := by with_unfolding_all rfl
  ⟨h, C3_suborder_numbering_and_ordering "P" wOrder wSubs h⟩

theorem C4_discounted_totals_reconcile_witness :
    splitOrder "P" wOrder = .ok wSubs ∧
    (∀ it ∈ wOrder.line_items, centB (itemUnitQtyVal it) = true) ∧
    centB (shippingTotals wOrder).2 = true ∧
    pyFloat (.s (order_discounted_total_of wOrder)) = .ok 24 ∧
    ((24 : ℚ) = (wOrder.line_items.map itemUnitQtyVal).sum + (shippingTotals wOrder).2) ∧
    (|(wSubs.map fun s => s.amount.sub_order_discounted_total).sum - 24| ≤ 2 / 100 ∧
     ∀ s ∈ wSubs, s.amount.order_discounted_total = order_discounted_total_of wOrder) :=
  have h : splitOrder "P" wOrder = .ok wSubs := by with_unfolding_all rfl
  have hi : ∀ it ∈ wOrder.line_items, centB (itemUnitQtyVal it) = true :=
    of_decide_eq_true (by with_unfolding_all rfl)
  have hs : centB (shippingTotals wOrder).2 = true := by with_unfolding_all rfl
  have ht : pyFloat (.s (order_discounted_total_of wOrder)) = .ok 24 := by with_unfolding_all rfl
  have hq : (24 : ℚ) = (wOrder.line_items.map itemUnitQtyVal).sum + (shippingTotals wOrder).2 := by
    with_unfolding_all rfl
  ⟨h, hi, hs, ht, hq, C4_discounted_totals_reconcile "P" wOrder wSubs 24 h hi hs ht hq⟩

theorem C7_amended_empty_order_witness :
    c7order.line_items = [] ∧
    (∃ s : SubOrder, splitOrder "P7" c7order = .ok [s] ∧
      s.region = OTHER_REGION ∧ s.items_json = [] ∧
      s.amount.sub_order_original_total = round2 (shippingTotals c7order).1 ∧
      s.amount.sub_order_discounted_total = round2 (shippingTotals c7order).2 ∧
      s.shipping_fee = (shippingTotals c7order).2 ∧
      (shippingTotals c7order = (0, 0) →
        s.amount.sub_order_original_total = 0 ∧ s.amount.sub_order_discounted_total = 0)) :=
  ⟨rfl, C7_amended_empty_order_single_other_suborder "P7" c7order rfl⟩

theorem C6_amended_replace_witness :
    ((replaceTrace [c6sub "OLD"] [c6sub "W"]).getLast? = Option.some [c6sub "W"]) ∧
    (([] : List SubOrder) = [c6sub "OLD"] ∨ ∃ k : Nat, ([] : List SubOrder) = [c6sub "W"].take k) :=
  have hmem : ([] : List SubOrder) ∈ replaceTrace [c6sub "OLD"] [c6sub "W"] := by
    have htrace : replaceTrace [c6sub "OLD"] [c6sub "W"]
        = [[c6sub "OLD"], [], [c6sub "W"]] := rfl
    rw [htrace]
    exact List.mem_cons_of_mem _ (List.mem_cons_self _ _)
  ⟨(C6_amended_replace_completes_but_not_atomic [c6sub "OLD"] [c6sub "W"]).1,
   (C6_amended_replace_completes_but_not_atomic [c6sub "OLD"] [c6sub "W"]).2 [] hmem⟩

/-- The sub-orders produced with a second (ignored) shipping line present. -/
def w10subs : List SubOrder :=
  match splitOrder "P" { wOrder with shipping_lines := wLine0 :: [wLineX] } with
  | .ok l => l
  | .error _ => []

/-- The witness order with an inconsistent reported total: every numeric field
parses (whole cents), but `total_price` is 100.00 while the items and shipping
sum to 24.00. -/
def c4order : Order := { wOrder with total_price := "100.00" }

/-- The sub-orders the split of `c4order` produces. -/
def c4subs : List SubOrder :=
  match splitOrder "P" c4order with
  | .ok l => l
  | .error _ => []

/-- C4 counterexample: an order whose numeric fields all parse to whole cents
but whose reported discounted total (100.00) disagrees with the computed item
and shipping sum (24.00) splits successfully: the sub-order discounted totals
sum to 24, violating the 0.02 tolerance against the reported total, and the
split still produces every value with the reported total stored verbatim — the
split path contains no reconciliation check, so the violation triggers no
distinct behavior (in particular nothing resembling a warning), refuting the
claim as stated. -/
theorem C4_counterexample_no_reconciliation_check :
    splitOrder "P" c4order = .ok c4subs ∧
    (c4order.line_items.all fun it => centB (itemUnitQtyVal it)) = true ∧
    centB (shippingTotals c4order).2 = true ∧
    pyFloat (.s (order_discounted_total_of c4order)) = .ok 100 ∧
    (c4subs.map fun s => s.amount.sub_order_discounted_total).sum = 24 ∧
    ¬(|(c4subs.map fun s => s.amount.sub_order_discounted_total).sum - 100| ≤ 2 / 100) ∧
    c4subs.map (fun s => s.amount.order_discounted_total) = ["100.00", "100.00"] := by
  have hsum : (c4subs.map fun s => s.amount.sub_order_discounted_total).sum = 24 := by
    with_unfolding_all rfl
  refine ⟨by with_unfolding_all rfl, by with_unfolding_all rfl, by with_unfolding_all rfl,
    by with_unfolding_all rfl, hsum, ?_, by with_unfolding_all rfl⟩
  rw [hsum]
  norm_num

theorem C10_rest_shipping_lines_ignored_witness :
    ((splitOrder "P" { wOrder with shipping_lines := wLine0 :: [wLineX] }).map (List.map moneyView)
      = (splitOrder "P" { wOrder with shipping_lines := wLine0 :: [] }).map (List.map moneyView)) ∧
    splitOrder "P" { wOrder with shipping_lines := wLine0 :: [wLineX] } = .ok w10subs ∧
    w10subs.map (fun s => s.delivery_config)
      = List.replicate w10subs.length (Option.some (wLine0 :: [wLineX])) :=
  have h : splitOrder "P" { wOrder with shipping_lines := wLine0 :: [wLineX] } = .ok w10subs := by
    with_unfolding_all rfl
  ⟨(C10_rest_shipping_lines_ignored_in_money "P" wOrder wLine0 [wLineX] []).1,
   h,
   (C10_rest_shipping_lines_ignored_in_money "P" wOrder wLine0 [wLineX] []).2 w10subs h⟩

end Zenheart
